import Mathlib

/-!
Verification of the simultaneous-move MCTS engine (`src/sm-mcts.ts`).

The TypeScript source is shallowly embedded below.  JavaScript objects that
form the search tree (`MonteCarloNode` instances linked by `_parent` and
`_childNodes` references) are represented by an arena: a `List MonteCarloNode`
whose indices play the role of object references.  JavaScript `Map`s are
association lists in insertion order (JS `Map` iterates in insertion order and
`Map.set` appends fresh keys at the end).  JavaScript `Set`s are lists in
insertion order.  JS `number` is modelled by `ℝ` for payoffs/rewards and by
`Nat` for the visit/rollout counters (which are only ever incremented by one
from zero).  Code that can hit a JavaScript runtime `TypeError` (reading a
property of `undefined`) or an explicit `throw` is modelled in
`Except String`.  Unbounded recursion/loops take explicit fuel; exhausting
fuel is an `Except.error`, so `Except.ok` results correspond exactly to
completed executions of the source.
-/

namespace SmMcts

/-- The two players, `'min' | 'max'` from the source. -/
inductive Player where
  | min : Player
  | max : Player
deriving DecidableEq, Repr

instance : BEq Player := ⟨fun a b => decide (a = b)⟩

instance : LawfulBEq Player where
  eq_of_beq h := by simpa [(· == ·)] using h
  rfl := by simp [(· == ·)]

instance {ε α : Type} [DecidableEq ε] [DecidableEq α] : DecidableEq (Except ε α) := fun x y =>
  match x, y with
  | Except.ok a, Except.ok b =>
    if h : a = b then Decidable.isTrue (by rw [h]) else Decidable.isFalse (by simp [h])
  | Except.error e, Except.error f =>
    if h : e = f then Decidable.isTrue (by rw [h]) else Decidable.isFalse (by simp [h])
  | Except.ok _, Except.error _ => Decidable.isFalse (by simp)
  | Except.error _, Except.ok _ => Decidable.isFalse (by simp)

/-- Embedding of the `Action` interface: a display name and a stable hash. -/
structure Action where
  name : String
  hash : String
deriving DecidableEq, Repr

/-- Embedding of the `SimultaneousAction` interface.  The `actions` map
(player to action) is an association list in insertion order; `str` stands for
the `toString()` implementation supplied by the game. -/
structure SimultaneousAction where
  actions : List (Player × Action)
  isChance : Bool
  hash : String
  str : String
deriving DecidableEq, Repr

/-- Embedding of the `State` interface.  `possibleSimultaneousActions` is the
`Set<SimultaneousAction>` in insertion order; `playerActions` embeds
`getPlayerActions`; `isFinal` and `awaitsChance` embed the two predicates. -/
structure State where
  hash : String
  possibleSimultaneousActions : List SimultaneousAction
  playerActions : Player → List Action
  isFinal : Bool
  awaitsChance : Bool

/-- Embedding of the private fields of class `MonteCarloNode`.
`childNodes` is the `Map<string, MonteCarloNode>` keyed by simultaneous-action
hash (values are arena indices); `parent` is `none` exactly for the root. -/
structure MonteCarloNode where
  state : State
  childNodes : List (String × Nat)
  parent : Option Nat
  numberOfVisits : Nat
  payoff : ℝ
  rollouts : Nat

/-- Embedding of `MonteCarloNode.hash` (`this._state.hash`). -/
def MonteCarloNode.hash (n : MonteCarloNode) : String := n.state.hash

/-- Embedding of `MonteCarloNode.isRoot` (`!this._parent`). -/
def MonteCarloNode.isRoot (n : MonteCarloNode) : Bool := n.parent.isNone

/-- Embedding of `MonteCarloNode.isFinalState` (`this._state.isFinal()`). -/
def MonteCarloNode.isFinalState (n : MonteCarloNode) : Bool := n.state.isFinal

/-- The field update performed by one step of `MonteCarloNode.addVisit`:
`this._numberOfVisits++; this._payoff += vs`. -/
def bumpVisit (vs : ℝ) (n : MonteCarloNode) : MonteCarloNode :=
  { n with numberOfVisits := n.numberOfVisits + 1, payoff := n.payoff + vs }

/-- The field update performed by one step of `MonteCarloNode.addRollout`:
`this._rollouts++`. -/
def bumpRollout (n : MonteCarloNode) : MonteCarloNode :=
  { n with rollouts := n.rollouts + 1 }

/-- Shared recursion skeleton of `MonteCarloNode.addVisit` and
`MonteCarloNode.addRollout`: apply `f` to the node at `id` and recurse into
the parent until a parentless (root) node is reached.  The recursion of the
source is structural on the parent chain; here it takes fuel, and under the
well-formedness invariant `parentLt` a fuel of `id + 1` always suffices. -/
def propagateFuel (f : MonteCarloNode → MonteCarloNode) :
    Nat → List MonteCarloNode → Nat → List MonteCarloNode
  | 0, arena, _ => arena
  | fuel + 1, arena, id =>
    match arena[id]? with
    | none => arena
    | some node =>
      let arena1 := arena.set id (f node)
      match node.parent with
      | none => arena1
      | some p => propagateFuel f fuel arena1 p

/-- Embedding of `MonteCarloNode.addVisit(vs)` on the arena, started at node
`id`. -/
def MonteCarloNode.addVisit (arena : List MonteCarloNode) (id : Nat) (vs : ℝ) :
    List MonteCarloNode :=
  propagateFuel (bumpVisit vs) (id + 1) arena id

/-- Embedding of `MonteCarloNode.addRollout()` on the arena, started at node
`id`. -/
def MonteCarloNode.addRollout (arena : List MonteCarloNode) (id : Nat) :
    List MonteCarloNode :=
  propagateFuel bumpRollout (id + 1) arena id

/-- The chain of nodes visited by the parent-following recursion of
`addVisit`/`addRollout`, starting at `id` (fuel-bounded). -/
def chainFuel (arena : List MonteCarloNode) : Nat → Nat → List Nat
  | 0, _ => []
  | fuel + 1, id =>
    match arena[id]? with
    | none => []
    | some node =>
      match node.parent with
      | none => [id]
      | some p => id :: chainFuel arena fuel p

/-- The ancestor chain of node `id`: `id`, its parent, …, up to the first
parentless node. -/
def ancestorChain (arena : List MonteCarloNode) (id : Nat) : List Nat :=
  chainFuel arena (id + 1) id

/-- Well-formedness: every parent reference points strictly below the child in
the arena (objects are created after their parents, source constructor lines
77-87). -/
def parentLt (arena : List MonteCarloNode) : Prop :=
  ∀ i (node : MonteCarloNode), arena[i]? = some node → ∀ p, node.parent = some p → p < i

/-- Well-formedness: node `0` (the node created by the `MonteCarloTree`
constructor) is the unique parentless node. -/
def rootedArena (arena : List MonteCarloNode) : Prop :=
  ∀ i (node : MonteCarloNode), arena[i]? = some node → (node.parent = none ↔ i = 0)

/-- Monadic `Array.prototype.find` over `Except`: evaluates the predicate left
to right and stops at the first `true`; a predicate error aborts (JS: an
exception thrown inside the callback propagates). -/
def findExc {α : Type} (p : α → Except String Bool) : List α → Except String (Option α)
  | [] => Except.ok none
  | a :: as => do
    if (← p a) then pure (some a) else findExc p as

/-- Monadic `Array.prototype.filter` over `Except`: evaluates the predicate
left to right; a predicate error aborts. -/
def filterExc {α : Type} (p : α → Except String Bool) : List α → Except String (List α)
  | [] => Except.ok []
  | a :: as => do
    let b ← p a
    let rest ← filterExc p as
    pure (if b then a :: rest else rest)

/-- Embedding of `MonteCarloNode.unplayedSimultActions`: the possible
simultaneous actions that have no child yet or whose child has zero visits
(`!this.hasChild(sa) || this.getChild(sa)._numberOfVisits === 0`).  A dangling
child id cannot arise in the arena encoding of object references, so that
branch is arbitrary. -/
def MonteCarloNode.unplayedSimultActions (arena : List MonteCarloNode)
    (node : MonteCarloNode) : List SimultaneousAction :=
  node.state.possibleSimultaneousActions.filter fun sa =>
    match List.lookup sa.hash node.childNodes with
    | none => true
    | some cid =>
      match arena[cid]? with
      | none => true
      | some child => child.numberOfVisits == 0

/-- Embedding of `MonteCarloNode.possibleSimultActions`. -/
def MonteCarloNode.possibleSimultActions (node : MonteCarloNode) : List SimultaneousAction :=
  node.state.possibleSimultaneousActions

/-- Embedding of `MonteCarloNode.childActions` (`[...this._childNodes.keys()]`). -/
def MonteCarloNode.childActions (node : MonteCarloNode) : List String :=
  node.childNodes.map Prod.fst

/-- Embedding of `MonteCarloNode.hasChilds()` (`this._childNodes.size > 0`). -/
def MonteCarloNode.hasChilds (node : MonteCarloNode) : Bool :=
  node.childNodes.length > 0

/-- Embedding of `MonteCarloNode.hasChild(sa)` (`this._childNodes.has(sa.hash)`). -/
def MonteCarloNode.hasChild (node : MonteCarloNode) (sa : SimultaneousAction) : Bool :=
  (List.lookup sa.hash node.childNodes).isSome

/-- Embedding of `MonteCarloNode.getChild(sa)` (`this._childNodes.get(sa.hash)`,
which is `undefined` when absent). -/
def MonteCarloNode.getChild (node : MonteCarloNode) (sa : SimultaneousAction) :
    Option Nat :=
  List.lookup sa.hash node.childNodes

/-- Embedding of `MonteCarloNode.getActions(player)`
(`this._state.getPlayerActions(player)`). -/
def MonteCarloNode.getActions (node : MonteCarloNode) (player : Player) : List Action :=
  node.state.playerActions player

/-- Embedding of `MonteCarloNode.getChilds(player, action)`: filter the
possible simultaneous actions by the player component's hash and look each
one's child up in `_childNodes` (`Map.get` yields `undefined`, i.e. `none`,
for actions without a child).  The filter predicate
`simultAction.actions.get(player).hash === action.hash` would raise a
`TypeError` when a simultaneous action has no entry for `player`, hence the
`Except`. -/
def MonteCarloNode.getChilds (arena : List MonteCarloNode) (node : MonteCarloNode)
    (player : Player) (action : Action) : Except String (List (Option MonteCarloNode)) := do
  let filtered ← filterExc (fun sa =>
    match List.lookup player sa.actions with
    | none => Except.error "TypeError: cannot read hash of undefined"
    | some a => Except.ok (a.hash == action.hash)) node.possibleSimultActions
  Except.ok (filtered.map fun sa => (List.lookup sa.hash node.childNodes).bind fun cid => arena[cid]?)

/-- Embedding of `MonteCarloNode.getNumberOfVisits(player, action)`: reduce
over `getChilds`, adding `node.numberOfVisits`; a missing child is
`undefined`, and reading `.numberOfVisits` from it raises a `TypeError`. -/
def MonteCarloNode.getNumberOfVisits (arena : List MonteCarloNode) (node : MonteCarloNode)
    (player : Player) (action : Action) : Except String Nat := do
  let cs ← MonteCarloNode.getChilds arena node player action
  cs.foldlM (fun total c =>
    match c with
    | none => Except.error "TypeError: cannot read numberOfVisits of undefined"
    | some child => Except.ok (total + child.numberOfVisits)) 0

/-- Embedding of `MonteCarloNode.getCumulativePayoff(player, action)`: reduce
over `getChilds`, adding `node.payoff`; a missing child is `undefined`, and
reading `.payoff` from it raises a `TypeError`. -/
def MonteCarloNode.getCumulativePayoff (arena : List MonteCarloNode) (node : MonteCarloNode)
    (player : Player) (action : Action) : Except String ℝ := do
  let cs ← MonteCarloNode.getChilds arena node player action
  cs.foldlM (fun total c =>
    match c with
    | none => Except.error "TypeError: cannot read payoff of undefined"
    | some child => Except.ok (total + child.payoff)) 0

/-- One conjunct of the matching loop of `MonteCarloNode.getSimultaneousAction`:
`match = match && (actions.get(player).hash === simulAction.actions.get(player).hash)`.
The `&&` short-circuits, so once `match` is false the hashes are no longer
read; an `undefined` on either side of `.hash` raises a `TypeError`.  The
choice map may hold `undefined` values (see `SmMCTS._select` when a player has
no actions), hence `Option Action`. -/
def saMatchStep (sa : SimultaneousAction) (acc : Bool) (choice : Player × Option Action) :
    Except String Bool :=
  if !acc then Except.ok false
  else
    match choice.2 with
    | none => Except.error "TypeError: cannot read hash of undefined"
    | some a =>
      match List.lookup choice.1 sa.actions with
      | none => Except.error "TypeError: cannot read hash of undefined"
      | some a2 => Except.ok (a.hash == a2.hash)

/-- The predicate passed to `find` inside `MonteCarloNode.getSimultaneousAction`:
sizes must agree, then every player's chosen component must match by hash. -/
def saMatches (sa : SimultaneousAction) (choices : List (Player × Option Action)) :
    Except String Bool :=
  if sa.actions.length ≠ choices.length then Except.ok false
  else choices.foldlM (saMatchStep sa) true

/-- Embedding of `MonteCarloNode.getSimultaneousAction(actions)`: throws when
the node has no possible simultaneous actions, otherwise returns the result of
`find` — which is `undefined` (`none`) when no possible simultaneous action
matches every player's chosen component. -/
def MonteCarloNode.getSimultaneousAction (node : MonteCarloNode)
    (choices : List (Player × Option Action)) : Except String (Option SimultaneousAction) :=
  if node.possibleSimultActions.length = 0 then
    Except.error "no possible actions for node"
  else findExc (fun sa => saMatches sa choices) node.possibleSimultActions

/-- Embedding of `MonteCarloNode.getActionHashForChild(child)`:
`[...this._childNodes.entries()].find((node) => node[1].hash === child.hash)[0]`.
Resolving an entry's node reference cannot dangle in a well-formed arena, but
the `find` may fail, in which case indexing `undefined` with `[0]` raises a
`TypeError`. -/
def MonteCarloNode.getActionHashForChild (arena : List MonteCarloNode)
    (node : MonteCarloNode) (child : MonteCarloNode) : Except String String := do
  let entry ← findExc (fun e =>
    match arena[e.2]? with
    | none => Except.error "TypeError: cannot read hash of undefined"
    | some n => Except.ok (n.hash == child.hash)) node.childNodes
  match entry with
  | none => Except.error "TypeError: cannot index undefined"
  | some e => Except.ok e.1

/-- Embedding of `MonteCarloNode.actionPath(existingPath?)`, fuel-bounded walk
up the parent chain.  On the root it returns `existingPath` unchanged — in
particular `undefined` (`none`) when called without an argument.  Otherwise it
prepends the action hash leading to this node and recurses into the parent. -/
def actionPathFuel (arena : List MonteCarloNode) :
    Nat → Nat → Option (List String) → Except String (Option (List String))
  | 0, _, _ => Except.error "out of fuel"
  | fuel + 1, id, existingPath =>
    match arena[id]? with
    | none => Except.error "TypeError: node reference is undefined"
    | some node =>
      match node.parent with
      | none => Except.ok existingPath
      | some pid =>
        match arena[pid]? with
        | none => Except.error "TypeError: cannot read actionPath of undefined"
        | some pnode => do
          let h ← MonteCarloNode.getActionHashForChild arena pnode node
          actionPathFuel arena fuel pid (some (h :: existingPath.getD []))

/-- Embedding of the external call `node.actionPath()` (no argument). -/
def MonteCarloNode.actionPath (arena : List MonteCarloNode) (id : Nat) :
    Except String (Option (List String)) :=
  actionPathFuel arena (id + 1) id none

/-- Embedding of the private fields of class `MonteCarloTree`.  `arena` holds
every `MonteCarloNode` object ever constructed, in creation order; `nodes` is
the hash-indexed registry `Map<string, MonteCarloNode>`; `actions` is the
hash-to-action translation map. -/
structure MonteCarloTree where
  arena : List MonteCarloNode
  nodes : List (String × Nat)
  currentNode : Nat
  rootHash : String
  actions : List (String × SimultaneousAction)

/-- Embedding of the `MonteCarloTree` constructor: create the root node from
`state`, remember its hash and register it. -/
def MonteCarloTree.ofState (state : State) : MonteCarloTree :=
  { arena := [{ state := state, childNodes := [], parent := none,
                numberOfVisits := 0, payoff := 0, rollouts := 0 }],
    nodes := [(state.hash, 0)],
    currentNode := 0,
    rootHash := state.hash,
    actions := [] }

/-- Embedding of `MonteCarloTree.root` (`this._nodes.get(this._rootHash)`),
`undefined` when the registry misses the root hash (never happens). -/
def MonteCarloTree.root (t : MonteCarloTree) : Option MonteCarloNode :=
  (List.lookup t.rootHash t.nodes).bind fun i => t.arena[i]?

/-- The root node's visit count, the quantity the tests observe as
`mcts.tree.root.visits`. -/
def MonteCarloTree.rootVisits (t : MonteCarloTree) : Option Nat :=
  t.root.map MonteCarloNode.numberOfVisits

/-- Embedding of `MonteCarloTree.actionDescription(hash)`. -/
def MonteCarloTree.actionDescription (t : MonteCarloTree) (hash : String) : String :=
  match List.lookup hash t.actions with
  | some a => a.str
  | none => "N/A"

/-- Embedding of `MonteCarloTree.addAction(action)`: first registration wins,
later calls with the same hash are no-ops (returns whether it existed). -/
def MonteCarloTree.addAction (t : MonteCarloTree) (action : SimultaneousAction) :
    MonteCarloTree × Bool :=
  if (List.lookup action.hash t.actions).isSome then (t, true)
  else ({ t with actions := t.actions ++ [(action.hash, action)] }, false)

/-- Embedding of `MonteCarloTree.backToRoot()`
(`this._currentNode = this._nodes.get(this._rootHash)`); a missing root hash
would leave the JS cursor `undefined`, which the model keeps unchanged
(never happens). -/
def MonteCarloTree.backToRoot (t : MonteCarloTree) : MonteCarloTree :=
  match List.lookup t.rootHash t.nodes with
  | some i => { t with currentNode := i }
  | none => t

/-- Embedding of `MonteCarloTree.hasState(state)` (`this._nodes.has(state.hash)`). -/
def MonteCarloTree.hasState (t : MonteCarloTree) (state : State) : Bool :=
  (List.lookup state.hash t.nodes).isSome

/-- The first statement of `MonteCarloTree.goToChildState` (source lines
404-406): move the cursor to the existing child for the action hash, or
construct a new `MonteCarloNode` — whose constructor attaches it to the
current node via `addChild` — and move the cursor onto it. -/
def MonteCarloTree.moveOrCreateChild (t : MonteCarloTree) (simultActions : SimultaneousAction)
    (state : State) (cur : MonteCarloNode) : MonteCarloTree :=
  match List.lookup simultActions.hash cur.childNodes with
  | some childId => { t with currentNode := childId }
  | none =>
    let newId : Nat := t.arena.length
    let newNode : MonteCarloNode :=
      { state := state, childNodes := [], parent := some t.currentNode,
        numberOfVisits := 0, payoff := 0, rollouts := 0 }
    let parentUpdated : MonteCarloNode :=
      { cur with childNodes := cur.childNodes ++ [(simultActions.hash, newId)] }
    { t with arena := (t.arena.set t.currentNode parentUpdated) ++ [newNode],
             currentNode := newId }

/-- The last statement of `MonteCarloTree.goToChildState` (source lines
410-412): register the now-current node under its state hash, only if that
hash is not registered yet. -/
def MonteCarloTree.registerCurrent (t : MonteCarloTree) : MonteCarloTree :=
  match t.arena[t.currentNode]? with
  | none => t
  | some cnode =>
    if (List.lookup cnode.hash t.nodes).isSome then t
    else { t with nodes := t.nodes ++ [(cnode.hash, t.currentNode)] }

/-- Embedding of `MonteCarloTree.goToChildState(simultActions, state)`, source
lines 403-413: move the cursor to the existing child for the action hash, or
construct a new `MonteCarloNode` (whose constructor attaches it to the current
node via `addChild`); then `addAction`, and register the now-current node
under its state hash only if that hash is not registered yet. -/
def MonteCarloTree.goToChildState (t : MonteCarloTree) (simultActions : SimultaneousAction)
    (state : State) : MonteCarloTree :=
  match t.arena[t.currentNode]? with
  | none => t
  | some cur =>
    (((t.moveOrCreateChild simultActions state cur).addAction simultActions).1).registerCurrent

/-- Embedding of `MonteCarloTree.update(vs)`
(`this.currentNode.addVisit(vs)`). -/
def MonteCarloTree.update (t : MonteCarloTree) (vs : ℝ) : MonteCarloTree :=
  { t with arena := MonteCarloNode.addVisit t.arena t.currentNode vs }

/-- The tree half of `SmMCTS._rollout` (`this.currentNode.addRollout()`). -/
def MonteCarloTree.addRolloutAtCurrent (t : MonteCarloTree) : MonteCarloTree :=
  { t with arena := MonteCarloNode.addRollout t.arena t.currentNode }

/-- The body of the loop of `MonteCarloTree.getMostSimulatedSimultaneousAction`
over one child-key `h`: translate `h` through the `_actions` registry, fetch
the child's visit count (`node.getChild(simulAction).numberOfVisits`, a
`TypeError` when either resolution yields `undefined`), and update the running
`maxSimulations` / `maxSimulationActions` pair (`maxSimulationActions` being
`none` while still uninitialised). -/
def MonteCarloTree.mostSimulatedStep (t : MonteCarloTree) (node : MonteCarloNode)
    (acc : Int × Option (List SimultaneousAction)) (h : String) :
    Except String (Int × Option (List SimultaneousAction)) :=
  match List.lookup h t.actions with
  | none => Except.error "TypeError: cannot read hash of undefined"
  | some simulAction =>
    match List.lookup simulAction.hash node.childNodes with
    | none => Except.error "TypeError: cannot read numberOfVisits of undefined"
    | some cid =>
      match t.arena[cid]? with
      | none => Except.error "TypeError: cannot read numberOfVisits of undefined"
      | some child =>
        let simulations : Int := child.numberOfVisits
        if simulations = acc.1 then
          Except.ok (acc.1, (acc.2.getD []) ++ [simulAction] |> some)
        else if acc.1 < simulations then
          Except.ok (simulations, some [simulAction])
        else
          Except.ok acc

/-- Embedding of `MonteCarloTree.getMostSimulatedSimultaneousAction(node?)`,
source lines 362-381.  The node defaults to the root; the loop walks the
child-key list in insertion order, tracking `maxSimulations` (initially `-1`)
and the list of actions tied at the maximum; the result is element `[0]` of
that list.  When the node has no children the list is never initialised, and
`maxSimulationActions[0]` raises a `TypeError`; a child key missing from the
`_actions` registry makes `node.getChild(undefined)` read `.hash` of
`undefined`. -/
def MonteCarloTree.getMostSimulatedSimultaneousAction (t : MonteCarloTree)
    (nodeArg : Option Nat) : Except String SimultaneousAction := do
  let nid ←
    match nodeArg with
    | some i => Except.ok i
    | none =>
      match List.lookup t.rootHash t.nodes with
      | some i => Except.ok i
      | none => Except.error "TypeError: cannot read childActions of undefined"
  match t.arena[nid]? with
  | none => Except.error "TypeError: cannot read childActions of undefined"
  | some node =>
    let res ← (MonteCarloNode.childActions node).foldlM (t.mostSimulatedStep node)
      ((-1 : Int), none)
    match res.2 with
    | none => Except.error "TypeError: cannot index undefined"
    | some best =>
      match best[0]? with
      | some a => Except.ok a
      | none => Except.error "unreachable: tied list is never empty"

/-- Embedding of `MonteCarloTreeFrequencyTable.modePath` for a given modal
terminal node: `this._modeNode ? this._modeNode.actionPath().map(...) : []`.
When the modal node is the root, `actionPath()` is `undefined` and calling
`.map` on it raises a `TypeError`. -/
def MonteCarloTree.modePath (t : MonteCarloTree) (modeNode : Option Nat) :
    Except String (List String) :=
  match modeNode with
  | none => Except.ok []
  | some id => do
    match ← MonteCarloNode.actionPath t.arena id with
    | none => Except.error "TypeError: cannot read map of undefined"
    | some l => Except.ok (l.map fun h => t.actionDescription h)

/-- Embedding of `DEFAULT_EXPLORATION_COEFFICIENT = Math.SQRT2`. -/
noncomputable def DEFAULT_EXPLORATION_COEFFICIENT : ℝ := Real.sqrt 2

/-- Embedding of `DEFAULT_SIMULATION_TIMEOUT_SECONDS = 60 * 60`. -/
def DEFAULT_SIMULATION_TIMEOUT_SECONDS : Nat := 60 * 60

/-- Embedding of the `SmMCTS` constructor's exploration-coefficient default:
`explorationCoefficient === undefined ? DEFAULT_EXPLORATION_COEFFICIENT :
explorationCoefficient`. -/
noncomputable def SmMCTS.explorationCoefficientOf (explorationCoefficient : Option ℝ) : ℝ :=
  match explorationCoefficient with
  | none => DEFAULT_EXPLORATION_COEFFICIENT
  | some c => c

/-- Embedding of static `SmMCTS.UCT`, source lines 557-565: throws when the
action visit count or the node visit count is zero (`!actionVisits ||
!numberOfVisits` on `Nat` counters is exactly the zero test), otherwise
returns `sign(player) * (payoff/actionVisits +
c * sqrt(log10(numberOfVisits) / actionVisits))`. -/
noncomputable def SmMCTS.UCT (player : Player) (payoff : ℝ) (actionVisits : Nat)
    (numberOfVisits : Nat) (explorationCoefficient : ℝ) : Except String ℝ :=
  if actionVisits = 0 ∨ numberOfVisits = 0 then
    Except.error "UCT needs at least one visit on the action and on the node"
  else
    let payoffAvg : ℝ := payoff / (actionVisits : ℝ)
    let exploration : ℝ := Real.sqrt (Real.logb 10 (numberOfVisits : ℝ) / (actionVisits : ℝ))
    Except.ok ((if player = Player.min then (-1 : ℝ) else 1) *
      (payoffAvg + explorationCoefficient * exploration))

/-- The per-player inner loop of `SmMCTS._select`: evaluate UCT for every
action of `player` at the cursor node, keeping the running maximum (initially
`NEGATIVE_INFINITY`, modelled as `none`, below every real UCT value) and the
list of actions tied at the maximum; ties are broken with
`_.random(0, len - 1)` only when more than one action is tied.  Returns the
chosen action (`none` when the player has no actions, as indexing the empty
array yields `undefined`) and the advanced random-stream index. -/
noncomputable def SmMCTS.selectBestForPlayer (arena : List MonteCarloNode)
    (cur : MonteCarloNode) (explorationCoefficient : ℝ) (rng : Nat → Nat) (k : Nat)
    (player : Player) : Except String (Option Action × Nat) := do
  let step : (Option ℝ × List Action) → Action → Except String (Option ℝ × List Action) :=
    fun acc action => do
      let payoff ← MonteCarloNode.getCumulativePayoff arena cur player action
      let actionVisits ← MonteCarloNode.getNumberOfVisits arena cur player action
      let utc ← SmMCTS.UCT player payoff actionVisits cur.numberOfVisits explorationCoefficient
      match acc.1 with
      | none => pure (some utc, [action])
      | some m =>
        if utc = m then pure (acc.1, acc.2 ++ [action])
        else if m < utc then pure (some utc, [action])
        else pure acc
  let res ← (MonteCarloNode.getActions cur player).foldlM step (none, [])
  let best := res.2
  if best.length > 1 then
    Except.ok (best[rng k % best.length]?, k + 1)
  else
    Except.ok (best[0]?, k)

/-- Embedding of `SmMCTS._select()`: if unplayed simultaneous actions remain
at the cursor, return the first of them; otherwise run the UCT loop for each
player (the `_players` set iterates `min` then `max`), assemble the per-player
choices and resolve them through `getSimultaneousAction`. -/
noncomputable def SmMCTS.select (t : MonteCarloTree) (explorationCoefficient : ℝ)
    (rng : Nat → Nat) (k : Nat) : Except String (Option SimultaneousAction × Nat) :=
  match t.arena[t.currentNode]? with
  | none => Except.error "TypeError: cannot read unplayedSimultActions of undefined"
  | some cur =>
    if 0 < (MonteCarloNode.unplayedSimultActions t.arena cur).length then
      Except.ok ((MonteCarloNode.unplayedSimultActions t.arena cur).head?, k)
    else do
      let (aMin, k1) ← SmMCTS.selectBestForPlayer t.arena cur explorationCoefficient rng k Player.min
      let (aMax, k2) ← SmMCTS.selectBestForPlayer t.arena cur explorationCoefficient rng k1 Player.max
      let sa ← MonteCarloNode.getSimultaneousAction cur [(Player.min, aMin), (Player.max, aMax)]
      Except.ok (sa, k2)

/-- The `Simulator` interface, embedded as a record of pure transition
functions over an opaque simulator-state type `σ` (the JS simulator mutates in
place; here every method returns the successor state).  `choose` receives an
`Option` because the driver can pass it the `undefined` result of a failed
selection or of indexing an empty move array. -/
structure SimOracle (σ : Type) where
  state : σ → State
  prevAction : σ → SimultaneousAction
  isOver : σ → Bool
  choose : σ → Option SimultaneousAction → σ
  runSA : σ → σ
  reward : σ → ℝ
  restart : σ → σ

/-- The driver state threaded through `SmMCTS.runSimulations`: the simulator,
the tree, the `_simulationsRan` counter, and the read position in the random
stream (modelling the successive `_.random` draws). -/
structure DriverState (σ : Type) where
  sim : σ
  tree : MonteCarloTree
  simulationsRan : Nat
  rngIdx : Nat

/-- Embedding of the simulator half of `SmMCTS._rollout()`: repeatedly pick a
uniformly random possible simultaneous action (`moves[_.random(0, len-1)]`,
`undefined` when the move list is empty) and advance the simulator until it
reports game over. -/
def rolloutSim {σ : Type} (o : SimOracle σ) (rng : Nat → Nat) :
    Nat → σ → Nat → Except String (σ × Nat)
  | 0, s, k => if o.isOver s then Except.ok (s, k) else Except.error "out of fuel"
  | fuel + 1, s, k =>
    if o.isOver s then Except.ok (s, k)
    else
      let moves := (o.state s).possibleSimultaneousActions
      let s1 := o.choose s moves[rng k % moves.length]?
      rolloutSim o rng fuel (o.runSA s1) (k + 1)

/-- Embedding of `SmMCTS._simulate(didRollout?)`, source lines 481-515, with
explicit recursion fuel.  The four branches in source order: (1) the simulator
is over — register the final transition unless a rollout already played it,
count the iteration, backpropagate the terminal reward; (2) the state awaits a
chance resolution — register the transition and advance the simulator; (3) the
tree knows the state — align the cursor, select, feed the choice to the
simulator, advance unless the new state awaits chance; (4) a brand-new state —
register it, roll out to a terminal state, credit the rollout, and finalise
via branch (1). -/
noncomputable def SmMCTS.simulateFuel {σ : Type} (o : SimOracle σ)
    (explorationCoefficient : ℝ) (rng : Nat → Nat) :
    Nat → DriverState σ → Bool → Except String (DriverState σ)
  | 0, _, _ => Except.error "out of fuel"
  | fuel + 1, ds, didRollout =>
    if o.isOver ds.sim then
      Except.ok { ds with
        tree := (if didRollout then ds.tree
                 else ds.tree.goToChildState (o.prevAction ds.sim)
                   (o.state ds.sim)).update (o.reward ds.sim),
        simulationsRan := ds.simulationsRan + 1 }
    else if (o.state ds.sim).awaitsChance then
      SmMCTS.simulateFuel o explorationCoefficient rng fuel
        { ds with tree := ds.tree.goToChildState (o.prevAction ds.sim) (o.state ds.sim),
                  sim := o.runSA ds.sim } false
    else if ds.tree.hasState (o.state ds.sim) then
      match SmMCTS.select
          (if ((ds.tree.arena[ds.tree.currentNode]?).map MonteCarloNode.hash)
              ≠ some (o.state ds.sim).hash then
            ds.tree.goToChildState (o.prevAction ds.sim) (o.state ds.sim)
          else ds.tree) explorationCoefficient rng ds.rngIdx with
      | Except.error e => Except.error e
      | Except.ok (sa, k1) =>
        SmMCTS.simulateFuel o explorationCoefficient rng fuel
          { sim := if (o.state (o.choose ds.sim sa)).awaitsChance then o.choose ds.sim sa
                   else o.runSA (o.choose ds.sim sa),
            tree := if ((ds.tree.arena[ds.tree.currentNode]?).map MonteCarloNode.hash)
                ≠ some (o.state ds.sim).hash then
              ds.tree.goToChildState (o.prevAction ds.sim) (o.state ds.sim)
            else ds.tree,
            simulationsRan := ds.simulationsRan, rngIdx := k1 } false
    else
      match rolloutSim o rng fuel ds.sim ds.rngIdx with
      | Except.error e => Except.error e
      | Except.ok (s1, k1) =>
        SmMCTS.simulateFuel o explorationCoefficient rng fuel
          { sim := s1,
            tree := (ds.tree.goToChildState (o.prevAction ds.sim)
              (o.state ds.sim)).addRolloutAtCurrent,
            simulationsRan := ds.simulationsRan, rngIdx := k1 } true

/-- The continue condition of the `do … while` loop in
`SmMCTS.runSimulations`, source line 461:
`this._simulationsRan < targetSimulations || moment().isAfter(targetTime)`. -/
def SmMCTS.runSimulationsContinue (simulationsRan targetSimulations : Nat)
    (nowIsAfterTargetTime : Bool) : Bool :=
  decide (simulationsRan < targetSimulations) || nowIsAfterTargetTime

/-- Embedding of the `do … while` loop of `SmMCTS.runSimulations`: run one
simulation, restart the simulator, move the cursor back to the root, and
continue according to `runSimulationsContinue`.  `clock k` embeds the reading
`moment().isAfter(targetTime)` taken after `k` completed iterations. -/
noncomputable def SmMCTS.runSimulationsLoop {σ : Type} (o : SimOracle σ)
    (explorationCoefficient : ℝ) (rng : Nat → Nat) (clock : Nat → Bool) (simFuel : Nat) :
    Nat → DriverState σ → Nat → Except String (DriverState σ)
  | 0, _, _ => Except.error "out of loop fuel"
  | fuel + 1, ds, targetSimulations =>
    match SmMCTS.simulateFuel o explorationCoefficient rng simFuel ds false with
    | Except.error e => Except.error e
    | Except.ok ds1 =>
      if SmMCTS.runSimulationsContinue ds1.simulationsRan targetSimulations
          (clock ds1.simulationsRan) then
        SmMCTS.runSimulationsLoop o explorationCoefficient rng clock simFuel fuel
          { ds1 with sim := o.restart ds1.sim, tree := ds1.tree.backToRoot } targetSimulations
      else Except.ok { ds1 with sim := o.restart ds1.sim, tree := ds1.tree.backToRoot }

/-- The driver state produced by the `SmMCTS` constructor from a simulator in
state `s0`: a fresh tree rooted at `sim.state` and `_simulationsRan = 0`. -/
def SmMCTS.initialDriver {σ : Type} (o : SimOracle σ) (s0 : σ) : DriverState σ :=
  { sim := s0, tree := MonteCarloTree.ofState (o.state s0),
    simulationsRan := 0, rngIdx := 0 }

/-- Embedding of `SmMCTS.runSimulations(numberOfSimulations, …)` up to the end
of its iteration loop: the simulation target is
`this._simulationsRan + numberOfSimulations`, and the loop of
`runSimulationsLoop` is executed.  The statistics assembled afterwards (lines
463-478) only read the tree. -/
noncomputable def SmMCTS.runSimulationsModel {σ : Type} (o : SimOracle σ)
    (explorationCoefficient : ℝ) (rng : Nat → Nat) (clock : Nat → Bool)
    (simFuel loopFuel : Nat) (ds : DriverState σ) (numberOfSimulations : Nat) :
    Except String (DriverState σ) :=
  SmMCTS.runSimulationsLoop o explorationCoefficient rng clock simFuel loopFuel ds
    (ds.simulationsRan + numberOfSimulations)

/-- Specification-side restatement of the UCT formula from the spec, section
4.4: `sign(player) * (payoffSum/visits + C * sqrt(log10(nodeVisits)/visits))`
with `sign(max) = +1` and `sign(min) = -1`. -/
noncomputable def uctSpecFormula (player : Player) (payoffSum : ℝ) (visits : Nat)
    (nodeVisits : Nat) (c : ℝ) : ℝ :=
  (match player with
   | Player.max => (1 : ℝ)
   | Player.min => (-1 : ℝ)) *
    (payoffSum / (visits : ℝ) + c * Real.sqrt (Real.logb 10 (nodeVisits : ℝ) / (visits : ℝ)))

/-- Specification-side selection rule for the recommendation: the first
element, in order, whose visit count equals the maximum visit count of the
list. -/
def pickFirstMax (l : List (SimultaneousAction × Nat)) : Option SimultaneousAction :=
  match (l.map Prod.snd).max? with
  | none => none
  | some m => ((l.filter fun p => p.2 = m).map Prod.fst).head?

/-- The pure counterpart of `MonteCarloTree.mostSimulatedStep`, acting on the
already-resolved pair of a joint action and its child's visit count. -/
def mostSimStep (acc : Int × Option (List SimultaneousAction))
    (p : SimultaneousAction × Nat) : Int × Option (List SimultaneousAction) :=
  if (p.2 : Int) = acc.1 then (acc.1, some ((acc.2.getD []) ++ [p.1]))
  else if acc.1 < (p.2 : Int) then ((p.2 : Int), some [p.1])
  else acc

/-- Well-formedness of a `MonteCarloTree` value, maintained by every tree
operation: the arena is nonempty, the cursor is a valid reference, parents
point strictly downwards, node `0` is the unique root, the root hash resolves
to node `0`, and every child reference is valid. -/
structure WFTree (t : MonteCarloTree) : Prop where
  len_pos : 0 < t.arena.length
  cur_lt : t.currentNode < t.arena.length
  parent_lt : parentLt t.arena
  rooted : rootedArena t.arena
  root_reg : List.lookup t.rootHash t.nodes = some 0
  childs_lt : ∀ (i : Nat) (node : MonteCarloNode), t.arena[i]? = some node →
      ∀ pr ∈ node.childNodes, pr.2 < t.arena.length

/-- Executable check for `parentLt` on a concrete arena. -/
def parentLtB (arena : List MonteCarloNode) : Bool :=
  (List.range arena.length).all fun i =>
    match arena[i]? with
    | none => true
    | some node =>
      match node.parent with
      | none => true
      | some p => decide (p < i)

/-- Executable check for `rootedArena` on a concrete arena. -/
def rootedArenaB (arena : List MonteCarloNode) : Bool :=
  (List.range arena.length).all fun i =>
    match arena[i]? with
    | none => true
    | some node => node.parent.isNone == decide (i = 0)

/-- Concrete data: root state of the transposition scenario. -/
def stR : State :=
  { hash := "R", possibleSimultaneousActions := [], playerActions := fun _ => [],
    isFinal := false, awaitsChance := false }

/-- Concrete data: a state with hash `X`, reachable along two distinct action
sequences. -/
def stX : State :=
  { hash := "X", possibleSimultaneousActions := [], playerActions := fun _ => [],
    isFinal := true, awaitsChance := false }

/-- Concrete data: first joint action of the transposition scenario. -/
def saA : SimultaneousAction := { actions := [], isChance := false, hash := "a", str := "a" }

/-- Concrete data: second joint action of the transposition scenario. -/
def saB : SimultaneousAction := { actions := [], isChance := false, hash := "b", str := "b" }

/-- The tree after driving the two action sequences `[a]` and `[b]`, both
ending in states whose hash is `X`, through `goToChildState` (with the cursor
reset to the root in between, as `runSimulations` does). -/
def c1tree : MonteCarloTree :=
  ((((MonteCarloTree.ofState stR).goToChildState saA stX).backToRoot).goToChildState saB stX)

/-- Concrete data: the single player action of the two-step demo game. -/
def demoAction : Action := { name := "x", hash := "hx" }

/-- Concrete data: the single joint action of the demo game. -/
def demoSa : SimultaneousAction :=
  { actions := [(Player.max, demoAction), (Player.min, demoAction)],
    isChance := false, hash := "ha", str := "max x min x" }

/-- Concrete data: initial state of the demo game. -/
def demoS0 : State :=
  { hash := "s0", possibleSimultaneousActions := [demoSa],
    playerActions := fun _ => [demoAction], isFinal := false, awaitsChance := false }

/-- Concrete data: terminal state of the demo game. -/
def demoS1 : State :=
  { hash := "s1", possibleSimultaneousActions := [], playerActions := fun _ => [],
    isFinal := true, awaitsChance := false }

/-- Concrete data: simulator for the demo game over positions `0` (initial,
choice pending), `1` (joint action chosen), `2` (terminal). -/
def demoOracle : SimOracle Nat :=
  { state := fun s => if s = 0 then demoS0 else demoS1,
    prevAction := fun _ => demoSa,
    isOver := fun s => decide (1 ≤ s),
    choose := fun s _ => s,
    runSA := fun s => s + 1,
    reward := fun _ => 1,
    restart := fun _ => 0 }

/-- Concrete data: first registered child action of the tie scenario. -/
def ce5sa1 : SimultaneousAction := { actions := [], isChance := false, hash := "c1", str := "first" }

/-- Concrete data: second registered child action of the tie scenario. -/
def ce5sa2 : SimultaneousAction := { actions := [], isChance := false, hash := "c2", str := "second" }

/-- Concrete data: root node of the tie scenario, with two children tied at
one visit each. -/
def ce5root : MonteCarloNode :=
  { state := { hash := "r5", possibleSimultaneousActions := [ce5sa1, ce5sa2],
               playerActions := fun _ => [], isFinal := false, awaitsChance := false },
    childNodes := [("c1", 1), ("c2", 2)], parent := none,
    numberOfVisits := 2, payoff := 0, rollouts := 0 }

/-- Concrete data: first child of the tie scenario (one visit). -/
def ce5child1 : MonteCarloNode :=
  { state := { hash := "x5", possibleSimultaneousActions := [],
               playerActions := fun _ => [], isFinal := true, awaitsChance := false },
    childNodes := [], parent := some 0,
    numberOfVisits := 1, payoff := 0, rollouts := 0 }

/-- Concrete data: second child of the tie scenario (one visit). -/
def ce5child2 : MonteCarloNode :=
  { state := { hash := "y5", possibleSimultaneousActions := [],
               playerActions := fun _ => [], isFinal := true, awaitsChance := false },
    childNodes := [], parent := some 0,
    numberOfVisits := 1, payoff := 1, rollouts := 0 }

/-- Concrete data: a tree whose root has two children tied at one visit each. -/
def ce5tree : MonteCarloTree :=
  { arena := [ce5root, ce5child1, ce5child2],
    nodes := [("r5", 0), ("x5", 1), ("y5", 2)],
    currentNode := 0,
    rootHash := "r5",
    actions := [("c1", ce5sa1), ("c2", ce5sa2)] }

/-- Concrete data: a three-node arena (root with two leaf children) for
exercising `addVisit`. -/
def wit6arena : List MonteCarloNode :=
  [{ state := stR, childNodes := [("a", 1), ("b", 2)], parent := none,
     numberOfVisits := 5, payoff := 3, rollouts := 0 },
   { state := stX, childNodes := [], parent := some 0,
     numberOfVisits := 2, payoff := 1, rollouts := 0 },
   { state := { hash := "Y", possibleSimultaneousActions := [], playerActions := fun _ => [],
                isFinal := true, awaitsChance := false },
     childNodes := [], parent := some 0,
     numberOfVisits := 3, payoff := 2, rollouts := 0 }]

/-- Concrete data: `min` component of the joint action of the mismatch
scenario. -/
def a8min : Action := { name := "m", hash := "hm" }

/-- Concrete data: `max` component of the joint action of the mismatch
scenario. -/
def a8max : Action := { name := "M", hash := "hM" }

/-- Concrete data: a `max` action matching no legal joint action. -/
def a8other : Action := { name := "O", hash := "hO" }

/-- Concrete data: the single legal joint action of the mismatch scenario. -/
def sa8 : SimultaneousAction :=
  { actions := [(Player.min, a8min), (Player.max, a8max)], isChance := false,
    hash := "h8", str := "min m max M" }

/-- Concrete data: a node whose only legal joint action is `sa8`. -/
def node8 : MonteCarloNode :=
  { state := { hash := "n8", possibleSimultaneousActions := [sa8],
               playerActions := fun _ => [], isFinal := false, awaitsChance := false },
    childNodes := [], parent := none, numberOfVisits := 0, payoff := 0, rollouts := 0 }

/-- Concrete data: a node with one legal joint action matching the player's
action but no child node for it yet. -/
def node9 : MonteCarloNode :=
  { state := { hash := "n9", possibleSimultaneousActions := [sa8],
               playerActions := fun _ => [a8min], isFinal := false, awaitsChance := false },
    childNodes := [], parent := none, numberOfVisits := 0, payoff := 0, rollouts := 0 }

/-- Specification-side predicate: the component of `sa` for `player` has the
same hash as `action` (false when `sa` has no component for `player`). -/
def marginalMatchB (player : Player) (action : Action) (sa : SimultaneousAction) : Bool :=
  (List.lookup player sa.actions).any fun a => a.hash == action.hash

/-- Specification-side value: the child nodes of the node's matching joint
actions that exist, in order. -/
def matchingChilds (arena : List MonteCarloNode) (node : MonteCarloNode)
    (player : Player) (action : Action) : List MonteCarloNode :=
  ((node.possibleSimultActions.filter (marginalMatchB player action)).map
    fun sa => (List.lookup sa.hash node.childNodes).bind fun cid => arena[cid]?).reduceOption

/-- Concrete data: a one-node arena holding the child of the marginal-sum
scenario. -/
def arena9w : List MonteCarloNode :=
  [{ state := { hash := "c9", possibleSimultaneousActions := [],
                playerActions := fun _ => [], isFinal := true, awaitsChance := false },
     childNodes := [], parent := none, numberOfVisits := 4, payoff := 7, rollouts := 0 }]

/-- Concrete data: a node whose joint action `sa8` has the child node `0` of
`arena9w`. -/
def node9w : MonteCarloNode :=
  { state := { hash := "n9w", possibleSimultaneousActions := [sa8],
               playerActions := fun _ => [a8min], isFinal := false, awaitsChance := false },
    childNodes := [("h8", 0)], parent := none, numberOfVisits := 4, payoff := 7, rollouts := 0 }

/-- Concrete data: state for the action-path scenario. -/
def st10 : State :=
  { hash := "r10", possibleSimultaneousActions := [], playerActions := fun _ => [],
    isFinal := false, awaitsChance := false }

/-- Concrete data: the root node the `MonteCarloTree` constructor builds from
`st10`. -/
def node10 : MonteCarloNode :=
  { state := st10, childNodes := [], parent := none,
    numberOfVisits := 0, payoff := 0, rollouts := 0 }

/-! Helper lemmas about association-list lookup and arena access. -/

theorem lookup_append_left_of_some {α β : Type} [BEq α] {l : List (α × β)} (l' : List (α × β))
    {k : α} {v : β} (h : List.lookup k l = some v) : List.lookup k (l ++ l') = some v := by
  induction l with
  | nil => simp [List.lookup] at h
  | cons a t ih =>
    obtain ⟨ka, va⟩ := a
    rw [List.cons_append]
    rw [List.lookup] at h ⊢
    cases hk : (k == ka) with
    | true => simpa [hk] using h
    | false =>
      simp only [hk] at h ⊢
      exact ih h

theorem lookup_isSome_append {α β : Type} [BEq α] {l : List (α × β)} (l' : List (α × β))
    {k : α} (h : (List.lookup k l).isSome) : (List.lookup k (l ++ l')).isSome := by
  obtain ⟨v, hv⟩ := Option.isSome_iff_exists.mp h
  rw [lookup_append_left_of_some l' hv]
  rfl

theorem lt_length_of_getElem?_eq_some {α : Type} {l : List α} {i : Nat} {a : α}
    (h : l[i]? = some a) : i < l.length :=
  (List.getElem?_eq_some.mp h).1

theorem parentLt_of_parentLtB {arena : List MonteCarloNode} (h : parentLtB arena = true) :
    parentLt arena := by
  intro i node hi p hp
  have hlt : i < arena.length := lt_length_of_getElem?_eq_some hi
  have h0 := List.all_eq_true.mp h i (List.mem_range.mpr hlt)
  rw [hi] at h0
  have h1 : (match node.parent with
    | none => true
    | some q => decide (q < i)) = true := h0
  rw [hp] at h1
  exact of_decide_eq_true h1

theorem rootedArena_of_rootedArenaB {arena : List MonteCarloNode}
    (h : rootedArenaB arena = true) : rootedArena arena := by
  intro i node hi
  have hlt : i < arena.length := lt_length_of_getElem?_eq_some hi
  have h0 := List.all_eq_true.mp h i (List.mem_range.mpr hlt)
  rw [hi] at h0
  have h1 : (node.parent.isNone == decide (i = 0)) = true := h0
  have h2 := eq_of_beq h1
  constructor
  · intro hpn
    have h3 : true = decide (i = 0) := by rw [← h2, hpn]; rfl
    exact of_decide_eq_true h3.symm
  · intro hi0
    have h3 : node.parent.isNone = true := by rw [h2, hi0]; simp
    exact Option.isNone_iff_eq_none.mp h3

/-! Unfolding lemmas for the fuel-based recursions. -/

theorem propagateFuel_zero (f : MonteCarloNode → MonteCarloNode)
    (arena : List MonteCarloNode) (id : Nat) : propagateFuel f 0 arena id = arena := rfl

theorem propagateFuel_succ_none {arena : List MonteCarloNode} {id : Nat}
    (f : MonteCarloNode → MonteCarloNode) (fuel : Nat) (h : arena[id]? = none) :
    propagateFuel f (fuel + 1) arena id = arena := by
  rw [propagateFuel, h]

theorem propagateFuel_succ_some_none {arena : List MonteCarloNode} {id : Nat}
    {node : MonteCarloNode} (f : MonteCarloNode → MonteCarloNode) (fuel : Nat)
    (h : arena[id]? = some node) (hpar : node.parent = none) :
    propagateFuel f (fuel + 1) arena id = arena.set id (f node) := by
  rw [propagateFuel, h]
  simp only [hpar]

theorem propagateFuel_succ_some_some {arena : List MonteCarloNode} {id : Nat}
    {node : MonteCarloNode} {p : Nat} (f : MonteCarloNode → MonteCarloNode) (fuel : Nat)
    (h : arena[id]? = some node) (hpar : node.parent = some p) :
    propagateFuel f (fuel + 1) arena id = propagateFuel f fuel (arena.set id (f node)) p := by
  rw [propagateFuel, h]
  simp only [hpar]

theorem chainFuel_zero (arena : List MonteCarloNode) (id : Nat) :
    chainFuel arena 0 id = [] := rfl

theorem chainFuel_succ_none {arena : List MonteCarloNode} {id : Nat} (fuel : Nat)
    (h : arena[id]? = none) : chainFuel arena (fuel + 1) id = [] := by
  rw [chainFuel, h]

theorem chainFuel_succ_some_none {arena : List MonteCarloNode} {id : Nat}
    {node : MonteCarloNode} (fuel : Nat) (h : arena[id]? = some node)
    (hpar : node.parent = none) : chainFuel arena (fuel + 1) id = [id] := by
  rw [chainFuel, h]
  simp only [hpar]

theorem chainFuel_succ_some_some {arena : List MonteCarloNode} {id : Nat}
    {node : MonteCarloNode} {p : Nat} (fuel : Nat) (h : arena[id]? = some node)
    (hpar : node.parent = some p) :
    chainFuel arena (fuel + 1) id = id :: chainFuel arena fuel p := by
  rw [chainFuel, h]
  simp only [hpar]

/-! Preservation machinery for the parent-chain propagation shared by
`addVisit` and `addRollout`. -/

theorem propagateFuel_length (f : MonteCarloNode → MonteCarloNode) :
    ∀ (fuel : Nat) (arena : List MonteCarloNode) (id : Nat),
      (propagateFuel f fuel arena id).length = arena.length := by
  intro fuel
  induction fuel with
  | zero => intro arena id; rfl
  | succ n ih =>
    intro arena id
    cases h : arena[id]? with
    | none => rw [propagateFuel_succ_none f n h]
    | some node =>
      cases hp : node.parent with
      | none => rw [propagateFuel_succ_some_none f n h hp, List.length_set]
      | some p => rw [propagateFuel_succ_some_some f n h hp, ih, List.length_set]

theorem parent_map_set_of_parent_eq {arena : List MonteCarloNode} {id : Nat}
    {node m : MonteCarloNode} (hnode : arena[id]? = some node)
    (hm : m.parent = node.parent) :
    ∀ (j : Nat), ((arena.set id m)[j]?).map MonteCarloNode.parent
      = (arena[j]?).map MonteCarloNode.parent := by
  intro j
  rcases eq_or_ne id j with rfl | hne
  · rw [List.getElem?_set_self (lt_length_of_getElem?_eq_some hnode), hnode]
    simp [hm]
  · rw [List.getElem?_set_ne hne]

theorem parentLt_of_parent_map_eq {a₁ a₂ : List MonteCarloNode}
    (h : ∀ (j : Nat), (a₂[j]?).map MonteCarloNode.parent = (a₁[j]?).map MonteCarloNode.parent)
    (hp : parentLt a₁) : parentLt a₂ := by
  intro i node hi p hpp
  have hmap := h i
  rw [hi] at hmap
  cases h1 : a₁[i]? with
  | none => rw [h1] at hmap; simp at hmap
  | some n1 =>
    rw [h1] at hmap
    simp only [Option.map_some', Option.some.injEq] at hmap
    exact hp i n1 h1 p (by rw [← hmap, hpp])

theorem rootedArena_of_parent_map_eq {a₁ a₂ : List MonteCarloNode}
    (h : ∀ (j : Nat), (a₂[j]?).map MonteCarloNode.parent = (a₁[j]?).map MonteCarloNode.parent)
    (hr : rootedArena a₁) : rootedArena a₂ := by
  intro i node hi
  have hmap := h i
  rw [hi] at hmap
  cases h1 : a₁[i]? with
  | none => rw [h1] at hmap; simp at hmap
  | some n1 =>
    rw [h1] at hmap
    simp only [Option.map_some', Option.some.injEq] at hmap
    rw [hmap]
    exact hr i n1 h1

theorem chainFuel_congr_of_parent_map_eq {a₁ a₂ : List MonteCarloNode}
    (h : ∀ (j : Nat), (a₂[j]?).map MonteCarloNode.parent = (a₁[j]?).map MonteCarloNode.parent) :
    ∀ (fuel : Nat) (id : Nat), chainFuel a₂ fuel id = chainFuel a₁ fuel id := by
  intro fuel
  induction fuel with
  | zero => intro id; rfl
  | succ n ih =>
    intro id
    have hmap := h id
    cases h1 : a₁[id]? with
    | none =>
      rw [h1] at hmap
      cases h2 : a₂[id]? with
      | none => rw [chainFuel_succ_none n h1, chainFuel_succ_none n h2]
      | some n2 => rw [h2] at hmap; simp at hmap
    | some n1 =>
      rw [h1] at hmap
      cases h2 : a₂[id]? with
      | none => rw [h2] at hmap; simp at hmap
      | some n2 =>
        rw [h2] at hmap
        simp only [Option.map_some', Option.some.injEq] at hmap
        cases hp1 : n1.parent with
        | none =>
          rw [chainFuel_succ_some_none n h1 hp1,
            chainFuel_succ_some_none n h2 (by rw [hmap, hp1])]
        | some p =>
          rw [chainFuel_succ_some_some n h1 hp1,
            chainFuel_succ_some_some n h2 (by rw [hmap, hp1]), ih]

theorem mem_chainFuel_le {arena : List MonteCarloNode} (hp : parentLt arena) :
    ∀ (fuel : Nat) (id j : Nat), j ∈ chainFuel arena fuel id → j ≤ id := by
  intro fuel
  induction fuel with
  | zero => intro id j hj; simp [chainFuel_zero] at hj
  | succ n ih =>
    intro id j hj
    cases h1 : arena[id]? with
    | none => rw [chainFuel_succ_none n h1] at hj; simp at hj
    | some node =>
      cases h2 : node.parent with
      | none =>
        rw [chainFuel_succ_some_none n h1 h2] at hj
        simp at hj
        omega
      | some p =>
        rw [chainFuel_succ_some_some n h1 h2] at hj
        rcases List.mem_cons.mp hj with rfl | hj'
        · exact le_refl _
        · have hple := ih p j hj'
          have := hp id node h1 p h2
          omega

theorem propagateFuel_getElem {f : MonteCarloNode → MonteCarloNode}
    (hf : ∀ n, (f n).parent = n.parent) :
    ∀ (id : Nat) (fuel : Nat) (arena : List MonteCarloNode),
      parentLt arena → id < arena.length → id + 1 ≤ fuel →
      ∀ (j : Nat), (propagateFuel f fuel arena id)[j]? =
        if j ∈ chainFuel arena fuel id then (arena[j]?).map f else arena[j]? := by
  intro id
  induction id using Nat.strongRecOn with
  | _ id IH =>
    intro fuel arena hp hlen hfuel j
    obtain ⟨fl, rfl⟩ : ∃ fl, fuel = fl + 1 := ⟨fuel - 1, by omega⟩
    have hnode : arena[id]? = some arena[id] := List.getElem?_eq_getElem hlen
    cases hpar : (arena[id]).parent with
    | none =>
      rw [propagateFuel_succ_some_none f fl hnode hpar,
        chainFuel_succ_some_none fl hnode hpar]
      rcases eq_or_ne j id with rfl | hne
      · rw [List.getElem?_set_self hlen, hnode]
        simp
      · rw [List.getElem?_set_ne (Ne.symm hne)]
        simp [hne]
    | some p =>
      rw [propagateFuel_succ_some_some f fl hnode hpar,
        chainFuel_succ_some_some fl hnode hpar]
      have hplt : p < id := hp id arena[id] hnode p hpar
      have hmapeq := parent_map_set_of_parent_eq hnode (hf arena[id])
      have hchain := chainFuel_congr_of_parent_map_eq hmapeq fl p
      have hrec := IH p hplt fl (arena.set id (f arena[id]))
        (parentLt_of_parent_map_eq hmapeq hp)
        (by rw [List.length_set]; omega)
        (by omega) j
      rw [hrec, hchain]
      rcases eq_or_ne j id with rfl | hne
      · have hnot : j ∉ chainFuel arena fl p := fun hmem =>
          absurd (mem_chainFuel_le hp fl p j hmem) (by omega)
        rw [if_neg hnot, List.getElem?_set_self hlen, hnode,
          if_pos (List.mem_cons.mpr (Or.inl rfl))]
        simp
      · rw [List.getElem?_set_ne (Ne.symm hne)]
        by_cases hmem : j ∈ chainFuel arena fl p
        · rw [if_pos hmem, if_pos (List.mem_cons.mpr (Or.inr hmem))]
        · rw [if_neg hmem, if_neg (by
            intro hc
            rcases List.mem_cons.mp hc with rfl | h'
            · exact hne rfl
            · exact hmem h')]

theorem zero_mem_chainFuel {arena : List MonteCarloNode} (hp : parentLt arena)
    (hr : rootedArena arena) :
    ∀ (id : Nat) (fuel : Nat), id < arena.length → id + 1 ≤ fuel →
      0 ∈ chainFuel arena fuel id := by
  intro id
  induction id using Nat.strongRecOn with
  | _ id IH =>
    intro fuel hlen hfuel
    obtain ⟨fl, rfl⟩ : ∃ fl, fuel = fl + 1 := ⟨fuel - 1, by omega⟩
    have hnode : arena[id]? = some arena[id] := List.getElem?_eq_getElem hlen
    cases hpar : (arena[id]).parent with
    | none =>
      have hid0 : id = 0 := (hr id arena[id] hnode).mp hpar
      rw [chainFuel_succ_some_none fl hnode hpar, hid0]
      simp
    | some p =>
      have hplt : p < id := hp id arena[id] hnode p hpar
      rw [chainFuel_succ_some_some fl hnode hpar]
      exact List.mem_cons.mpr (Or.inr (IH p hplt fl (by omega) (by omega)))

theorem mem_self_chainFuel {arena : List MonteCarloNode} {id fuel : Nat}
    (hlen : id < arena.length) (hfuel : id + 1 ≤ fuel) : id ∈ chainFuel arena fuel id := by
  obtain ⟨fl, rfl⟩ : ∃ fl, fuel = fl + 1 := ⟨fuel - 1, by omega⟩
  have hnode : arena[id]? = some arena[id] := List.getElem?_eq_getElem hlen
  cases hpar : (arena[id]).parent with
  | none => rw [chainFuel_succ_some_none fl hnode hpar]; simp
  | some p =>
    rw [chainFuel_succ_some_some fl hnode hpar]
    exact List.mem_cons.mpr (Or.inl rfl)

/-- Claim C6: for every node `n` and every real reward `r`, `addVisit(r)` on
`n` increments the visit count of `n` and of every ancestor of `n` up to and
including the root by exactly one, and adds `r` — the same, un-negated value
for every node on the path — to the cumulative payoff of `n` and of every
such ancestor (this is `bumpVisit r`, which changes no other field); nodes
not on the path from `n` to the root are unchanged. -/
theorem addVisit_updates_exactly_ancestors (arena : List MonteCarloNode) (id : Nat)
    (vs : ℝ) (hp : parentLt arena) (hr : rootedArena arena) (hid : id < arena.length) :
    id ∈ ancestorChain arena id ∧ 0 ∈ ancestorChain arena id ∧
    (∀ j ∈ ancestorChain arena id,
        (MonteCarloNode.addVisit arena id vs)[j]? = (arena[j]?).map (bumpVisit vs)) ∧
    (∀ (j : Nat), j ∉ ancestorChain arena id →
        (MonteCarloNode.addVisit arena id vs)[j]? = arena[j]?) := by
  have hmaster : ∀ (j : Nat), (MonteCarloNode.addVisit arena id vs)[j]? =
      if j ∈ ancestorChain arena id then (arena[j]?).map (bumpVisit vs) else arena[j]? :=
    propagateFuel_getElem (f := bumpVisit vs) (fun n => rfl) id (id + 1) arena
      hp hid (le_refl _)
  refine ⟨mem_self_chainFuel hid (le_refl _),
    zero_mem_chainFuel hp hr id (id + 1) hid (le_refl _), ?_, ?_⟩
  · intro j hj
    rw [hmaster j, if_pos hj]
  · intro j hj
    rw [hmaster j, if_neg hj]

/-- Witness for C6 at a concrete three-node arena: `addVisit` started at node
`2` bumps nodes `2` and `0` and leaves node `1` alone. -/
theorem addVisit_updates_exactly_ancestors_witness :
    parentLt wit6arena ∧ rootedArena wit6arena ∧ 2 < wit6arena.length ∧
    (2 ∈ ancestorChain wit6arena 2 ∧ 0 ∈ ancestorChain wit6arena 2 ∧
      (∀ j ∈ ancestorChain wit6arena 2,
          (MonteCarloNode.addVisit wit6arena 2 5)[j]? = (wit6arena[j]?).map (bumpVisit 5)) ∧
      (∀ (j : Nat), j ∉ ancestorChain wit6arena 2 →
          (MonteCarloNode.addVisit wit6arena 2 5)[j]? = wit6arena[j]?)) :=
  have hp : parentLt wit6arena := parentLt_of_parentLtB (by decide)
  have hr : rootedArena wit6arena := rootedArena_of_rootedArenaB (by decide)
  ⟨hp, hr, by decide, addVisit_updates_exactly_ancestors wit6arena 2 5 hp hr (by decide)⟩

/-- Claim C1 (code bug): two action sequences driven through `goToChildState`
reaching states with equal hash `X` do NOT resolve to the same search node.
After `root --a--> X` and `root --b--> X`, the registry still maps hash `X` to
node `1`, but the cursor sits on a freshly created node `2` (the node linked
as the root's child under `b`), and backpropagating a visit through the
second path leaves node `1` untouched — visit/payoff accumulation is not
shared. -/
theorem goToChildState_transposition_not_merged :
    List.lookup "X" c1tree.nodes = some 1 ∧
    c1tree.currentNode = 2 ∧
    (c1tree.arena[1]?).map MonteCarloNode.hash = some "X" ∧
    (c1tree.arena[2]?).map MonteCarloNode.hash = some "X" ∧
    ((c1tree.update 1).arena[1]?).map MonteCarloNode.numberOfVisits = some 0 ∧
    ((c1tree.update 1).arena[2]?).map MonteCarloNode.numberOfVisits = some 1 :=
  ⟨rfl, rfl, rfl, rfl, rfl, rfl⟩

/-- Claim C2 (code bug): the `do … while` condition of `runSimulations` is
`simulationsRan < target || now.isAfter(deadline)`, so a new iteration begins
whenever the deadline has passed — even when the iteration target is already
met — and, as the universally quantified conjunct shows, once the clock reads
past the deadline the loop never completes at all. -/
theorem runSimulationsContinue_ignores_deadline :
    SmMCTS.runSimulationsContinue 5 5 true = true ∧
    SmMCTS.runSimulationsContinue 3 5 true = true ∧
    SmMCTS.runSimulationsContinue 5 5 false = false ∧
    ∀ (σ : Type) (o : SimOracle σ) (c : ℝ) (rng : Nat → Nat) (simFuel loopFuel : Nat)
      (ds : DriverState σ) (target : Nat),
      (SmMCTS.runSimulationsLoop o c rng (fun _ => true) simFuel loopFuel ds target).isOk
        = false := by
  refine ⟨by decide, by decide, by decide, ?_⟩
  intro σ o c rng simFuel loopFuel
  induction loopFuel with
  | zero => intro ds target; rfl
  | succ n ih =>
    intro ds target
    rw [SmMCTS.runSimulationsLoop]
    cases h : SmMCTS.simulateFuel o c rng simFuel ds false with
    | error e => rfl
    | ok ds1 =>
      simp only [SmMCTS.runSimulationsContinue, Bool.or_true, if_true]
      exact ih _ _

/-- Claim C4: under nonzero counts, `SmMCTS.UCT` returns exactly
`sign(player) * (payoff/visits + C * sqrt(log10(nodeVisits)/visits))` with
`sign(max) = +1`, `sign(min) = -1`, and the driver's exploration coefficient
defaults to `√2` when none is supplied to the constructor. -/
theorem UCT_matches_spec_formula (player : Player) (payoff : ℝ)
    (actionVisits numberOfVisits : Nat) (c : ℝ)
    (hv : actionVisits ≠ 0) (hn : numberOfVisits ≠ 0) :
    SmMCTS.UCT player payoff actionVisits numberOfVisits c =
      Except.ok (uctSpecFormula player payoff actionVisits numberOfVisits c) ∧
    SmMCTS.explorationCoefficientOf none = Real.sqrt 2 := by
  constructor
  · rw [SmMCTS.UCT, if_neg (by tauto)]
    cases player <;> simp [uctSpecFormula]
  · rfl

/-- Witness for C4 at concrete inputs `player = max`, `payoff = 3`,
`actionVisits = 1`, `numberOfVisits = 2`, `C = 1`. -/
theorem UCT_matches_spec_formula_witness :
    (1 : Nat) ≠ 0 ∧ (2 : Nat) ≠ 0 ∧
    (SmMCTS.UCT Player.max 3 1 2 1 = Except.ok (uctSpecFormula Player.max 3 1 2 1) ∧
      SmMCTS.explorationCoefficientOf none = Real.sqrt 2) :=
  ⟨by decide, by decide, UCT_matches_spec_formula Player.max 3 1 2 1 (by decide) (by decide)⟩

/-- Claim C7: `SmMCTS.UCT` raises an error if and only if the action visit
count or the node visit count is zero; when both counts are nonzero the error
branch is unreachable and a numeric value is returned. -/
theorem UCT_error_iff_zero_visits (player : Player) (payoff : ℝ)
    (actionVisits numberOfVisits : Nat) (c : ℝ) :
    ((SmMCTS.UCT player payoff actionVisits numberOfVisits c).isOk = false ↔
      actionVisits = 0 ∨ numberOfVisits = 0) ∧
    (actionVisits = 0 ∨ numberOfVisits = 0 ∨
      ∃ x : ℝ, SmMCTS.UCT player payoff actionVisits numberOfVisits c = Except.ok x) := by
  constructor
  · rw [SmMCTS.UCT]
    by_cases h : actionVisits = 0 ∨ numberOfVisits = 0
    · rw [if_pos h]
      simpa [Except.isOk, Except.toBool] using h
    · rw [if_neg h]
      simpa [Except.isOk, Except.toBool] using h
  · by_cases h : actionVisits = 0 ∨ numberOfVisits = 0
    · tauto
    · refine Or.inr (Or.inr ⟨(if player = Player.min then (-1 : ℝ) else 1) *
        (payoff / (actionVisits : ℝ) +
          c * Real.sqrt (Real.logb 10 (numberOfVisits : ℝ) / (actionVisits : ℝ))), ?_⟩)
      rw [SmMCTS.UCT, if_neg h]

/-- Claim C10: `actionPath()` invoked on a root node returns `undefined`
(`none`) rather than an empty list, and `modePath` — which calls `.map` on
that result — fails on it, so it is only defined when the modal node is not
the root. -/
theorem actionPath_root_is_undefined (t : MonteCarloTree) (id : Nat)
    (node : MonteCarloNode) (h : t.arena[id]? = some node) (hroot : node.parent = none) :
    MonteCarloNode.actionPath t.arena id = Except.ok none ∧
    (t.modePath (some id)).isOk = false := by
  have hpath : MonteCarloNode.actionPath t.arena id = Except.ok none := by
    rw [MonteCarloNode.actionPath, actionPathFuel, h]
    simp only [hroot]
  refine ⟨hpath, ?_⟩
  rw [MonteCarloTree.modePath]
  rw [hpath]
  rfl

/-- Witness for C10: the freshly constructed tree on `st10`, whose node `0` is
the parentless root. -/
theorem actionPath_root_is_undefined_witness :
    (MonteCarloTree.ofState st10).arena[0]? = some node10 ∧ node10.parent = none ∧
    (MonteCarloNode.actionPath (MonteCarloTree.ofState st10).arena 0 = Except.ok none ∧
      ((MonteCarloTree.ofState st10).modePath (some 0)).isOk = false) :=
  ⟨rfl, rfl, actionPath_root_is_undefined (MonteCarloTree.ofState st10) 0 node10 rfl rfl⟩

/-! Helper lemmas relating the `Except`-monadic traversals to pure list
operations. -/

theorem findExc_eq_none_of_all_false {α : Type} {p : α → Except String Bool} :
    ∀ l : List α, (∀ a ∈ l, p a = Except.ok false) → findExc p l = Except.ok none := by
  intro l
  induction l with
  | nil => intro _; rfl
  | cons a as ih =>
    intro h
    rw [findExc, h a (List.mem_cons_self a as)]
    show findExc p as = Except.ok none
    exact ih fun x hx => h x (List.mem_cons_of_mem a hx)

theorem filterExc_eq_filter {α : Type} {p : α → Except String Bool} {q : α → Bool} :
    ∀ l : List α, (∀ a ∈ l, p a = Except.ok (q a)) →
      filterExc p l = Except.ok (l.filter q) := by
  intro l
  induction l with
  | nil => intro _; rfl
  | cons a as ih =>
    intro h
    rw [filterExc, h a (List.mem_cons_self a as)]
    show filterExc p as >>= _ = _
    rw [ih fun x hx => h x (List.mem_cons_of_mem a hx)]
    show Except.ok (if q a then a :: as.filter q else as.filter q) = _
    rw [List.filter_cons]

theorem foldlM_all_some {γ : Type} (f : γ → MonteCarloNode → γ) (e : String) :
    ∀ (l : List (Option MonteCarloNode)) (init : γ), (∀ x ∈ l, x.isSome) →
      (List.foldlM (fun acc c =>
          match c with
          | none => Except.error e
          | some child => Except.ok (f acc child)) init l : Except String γ)
        = Except.ok (l.reduceOption.foldl f init) := by
  intro l
  induction l with
  | nil => intro init _; rfl
  | cons a as ih =>
    intro init h
    obtain ⟨x, rfl⟩ := Option.isSome_iff_exists.mp (h a (List.mem_cons_self a as))
    rw [List.foldlM_cons]
    show Except.ok (f init x) >>= _ = _
    rw [show (Except.ok (f init x) >>= fun init' =>
        List.foldlM _ init' as : Except String γ) = List.foldlM _ (f init x) as from rfl]
    rw [ih (f init x) fun y hy => h y (List.mem_cons_of_mem _ hy)]
    simp [List.reduceOption_cons_of_some]

/-- Claim C8 (counterexample): at `node8`, whose only legal joint action
`sa8` pairs `min ↦ hm` with `max ↦ hM`, resolving the per-player choices
`min ↦ hm, max ↦ hO` matches no legal joint action, yet
`getSimultaneousAction` returns `undefined` (`Except.ok none`) instead of
failing with a NotFound condition. -/
theorem getSimultaneousAction_silently_returns_undefined :
    node8.possibleSimultActions = [sa8] ∧
    saMatches sa8 [(Player.min, some a8min), (Player.max, some a8other)] = Except.ok false ∧
    node8.getSimultaneousAction [(Player.min, some a8min), (Player.max, some a8other)] =
      Except.ok none :=
  ⟨rfl, rfl, rfl⟩

/-- Claim C8 (amended): `getSimultaneousAction` throws only when the node has
no legal joint action at all; when joint actions exist but none matches every
player's chosen component it silently returns `undefined` (`Except.ok none`)
rather than failing. -/
theorem getSimultaneousAction_silent_on_no_match (node : MonteCarloNode)
    (choices : List (Player × Option Action))
    (hnomatch : ∀ sa ∈ node.possibleSimultActions, saMatches sa choices = Except.ok false) :
    node.getSimultaneousAction choices =
      (if node.possibleSimultActions.length = 0 then
        Except.error "no possible actions for node"
      else Except.ok none) := by
  rw [MonteCarloNode.getSimultaneousAction]
  by_cases h : node.possibleSimultActions.length = 0
  · rw [if_pos h, if_pos h]
  · rw [if_neg h, if_neg h]
    exact findExc_eq_none_of_all_false _ hnomatch

/-- Witness for the amended C8 at `node8` with the mismatching choices. -/
theorem getSimultaneousAction_silent_on_no_match_witness :
    (∀ sa ∈ node8.possibleSimultActions,
      saMatches sa [(Player.min, some a8min), (Player.max, some a8other)] = Except.ok false) ∧
    node8.getSimultaneousAction [(Player.min, some a8min), (Player.max, some a8other)] =
      (if node8.possibleSimultActions.length = 0 then
        Except.error "no possible actions for node"
      else Except.ok none) :=
  ⟨by decide, getSimultaneousAction_silent_on_no_match node8 _ (by decide)⟩

/-- Claim C9 (counterexample): at `node9` the joint action `sa8` matches the
player's action `a8min` by hash but has no child node yet; `getNumberOfVisits`
and `getCumulativePayoff` then crash (reading `.numberOfVisits` / `.payoff` of
`undefined`) instead of being total. -/
theorem marginal_sums_crash_without_child :
    node9.possibleSimultActions = [sa8] ∧
    marginalMatchB Player.min a8min sa8 = true ∧
    node9.getChild sa8 = none ∧
    (MonteCarloNode.getNumberOfVisits [] node9 Player.min a8min).isOk = false ∧
    (MonteCarloNode.getCumulativePayoff [] node9 Player.min a8min).isOk = false :=
  ⟨rfl, rfl, rfl, rfl, rfl⟩

/-- Claim C9 (amended): when every legal joint action of the node carries a
component for the player (no `TypeError` in the filter) and every joint
action matching the player's action by hash has an existing child node,
`getNumberOfVisits` returns the sum of the matching children's visit counts
and `getCumulativePayoff` the sum of their payoffs; when a matching joint
action has no child the calls crash on `undefined` instead (see the
counterexample). -/
theorem marginal_sums_over_matching_children (arena : List MonteCarloNode)
    (node : MonteCarloNode) (player : Player) (action : Action)
    (hcomp : ∀ sa ∈ node.possibleSimultActions, (List.lookup player sa.actions).isSome)
    (hchild : ∀ sa ∈ node.possibleSimultActions, marginalMatchB player action sa = true →
      ((List.lookup sa.hash node.childNodes).bind fun cid => arena[cid]?).isSome) :
    MonteCarloNode.getNumberOfVisits arena node player action =
      Except.ok ((matchingChilds arena node player action).foldl
        (fun total c => total + c.numberOfVisits) 0) ∧
    MonteCarloNode.getCumulativePayoff arena node player action =
      Except.ok ((matchingChilds arena node player action).foldl
        (fun total c => total + c.payoff) 0) := by
  have hfil : filterExc (fun sa =>
      match List.lookup player sa.actions with
      | none => Except.error "TypeError: cannot read hash of undefined"
      | some a => Except.ok (a.hash == action.hash)) node.possibleSimultActions
      = Except.ok (node.possibleSimultActions.filter (marginalMatchB player action)) := by
    refine filterExc_eq_filter _ fun sa hsa => ?_
    obtain ⟨a, ha⟩ := Option.isSome_iff_exists.mp (hcomp sa hsa)
    rw [ha]
    simp only [marginalMatchB, ha, Option.any_some]
  have hgc : MonteCarloNode.getChilds arena node player action =
      Except.ok ((node.possibleSimultActions.filter (marginalMatchB player action)).map
        fun sa => (List.lookup sa.hash node.childNodes).bind fun cid => arena[cid]?) := by
    rw [MonteCarloNode.getChilds, hfil]
    rfl
  have hsome : ∀ x ∈ (node.possibleSimultActions.filter
      (marginalMatchB player action)).map
        (fun sa => (List.lookup sa.hash node.childNodes).bind fun cid => arena[cid]?),
      x.isSome := by
    intro x hx
    obtain ⟨sa, hsa, rfl⟩ := List.mem_map.mp hx
    exact hchild sa (List.mem_of_mem_filter hsa) (List.of_mem_filter hsa)
  constructor
  · rw [MonteCarloNode.getNumberOfVisits, hgc]
    show List.foldlM _ _ _ = _
    rw [foldlM_all_some (fun total c => total + c.numberOfVisits) _ _ 0 hsome]
    rfl
  · rw [MonteCarloNode.getCumulativePayoff, hgc]
    show List.foldlM _ _ _ = _
    rw [foldlM_all_some (fun total c => total + c.payoff) _ _ 0 hsome]
    rfl

/-- Witness for the amended C9 at `node9w`/`arena9w`, where the single
matching joint action has the child `0` with four visits and payoff `7`. -/
theorem marginal_sums_over_matching_children_witness :
    (∀ sa ∈ node9w.possibleSimultActions, (List.lookup Player.min sa.actions).isSome) ∧
    (∀ sa ∈ node9w.possibleSimultActions, marginalMatchB Player.min a8min sa = true →
      ((List.lookup sa.hash node9w.childNodes).bind fun cid => arena9w[cid]?).isSome) ∧
    (MonteCarloNode.getNumberOfVisits arena9w node9w Player.min a8min =
      Except.ok ((matchingChilds arena9w node9w Player.min a8min).foldl
        (fun total c => total + c.numberOfVisits) 0) ∧
    MonteCarloNode.getCumulativePayoff arena9w node9w Player.min a8min =
      Except.ok ((matchingChilds arena9w node9w Player.min a8min).foldl
        (fun total c => total + c.payoff) 0)) :=
  ⟨by decide, by decide,
    marginal_sums_over_matching_children arena9w node9w Player.min a8min
      (by decide) (by decide)⟩

/-- Claim C5 (counterexample): at `ce5tree` the two root children are tied at
one visit each, yet `getMostSimulatedSimultaneousAction` — a deterministic
function with no random tie-break — always returns the first registered
action `ce5sa1`; the tied action `ce5sa2` can never be returned, so ties are
not broken by uniform random choice. -/
theorem getMostSimulated_deterministic_on_tie :
    (ce5tree.arena[1]?).map MonteCarloNode.numberOfVisits =
      (ce5tree.arena[2]?).map MonteCarloNode.numberOfVisits ∧
    ce5tree.getMostSimulatedSimultaneousAction none = Except.ok ce5sa1 ∧
    ce5sa1 ≠ ce5sa2 :=
  ⟨rfl, rfl, by decide⟩

theorem foldlM_mostSimulatedStep_eq {t : MonteCarloTree} {node : MonteCarloNode} :
    ∀ {hs : List String} {pairs : List (SimultaneousAction × Nat)},
      List.Forall₂ (fun (h : String) (p : SimultaneousAction × Nat) =>
        List.lookup h t.actions = some p.1 ∧ p.1.hash = h ∧
          (((List.lookup h node.childNodes).bind fun cid => t.arena[cid]?).map
            MonteCarloNode.numberOfVisits) = some p.2) hs pairs →
      ∀ acc, List.foldlM (t.mostSimulatedStep node) acc hs =
        Except.ok (pairs.foldl mostSimStep acc) := by
  intro hs pairs hall
  induction hall with
  | nil => intro acc; rfl
  | cons hrel htail ih =>
    rename_i a p hs2 pairs2
    intro acc
    obtain ⟨h1, h2, h3⟩ := hrel
    cases hl : List.lookup a node.childNodes with
    | none => rw [hl] at h3; simp at h3
    | some cid =>
      rw [hl] at h3
      simp only [Option.some_bind] at h3
      cases ha : t.arena[cid]? with
      | none => rw [ha] at h3; simp at h3
      | some child =>
        rw [ha] at h3
        simp only [Option.map_some', Option.some.injEq] at h3
        have hstep : t.mostSimulatedStep node acc a = Except.ok (mostSimStep acc p) := by
          simp only [MonteCarloTree.mostSimulatedStep, h1, h2, hl, ha, h3, mostSimStep]
          split_ifs <;> rfl
        rw [List.foldlM_cons, hstep]
        show List.foldlM (t.mostSimulatedStep node) (mostSimStep acc p) hs2 = _
        rw [ih (mostSimStep acc p), List.foldl_cons]

theorem foldl_mostSimStep_spec :
    ∀ (pairs : List (SimultaneousAction × Nat)), pairs ≠ [] →
      ∃ M : Nat,
        (pairs.foldl mostSimStep ((-1 : Int), none)).1 = (M : Int) ∧
        (∃ p ∈ pairs, p.2 = M) ∧ (∀ p ∈ pairs, p.2 ≤ M) ∧
        (pairs.foldl mostSimStep ((-1 : Int), none)).2 =
          some ((pairs.filter fun p => p.2 = M).map Prod.fst) := by
  intro pairs
  induction pairs using List.reverseRecOn with
  | nil => intro h; exact absurd rfl h
  | append_singleton l p ih =>
    intro _
    rcases eq_or_ne l [] with rfl | hlne
    · refine ⟨p.2, ?_⟩
      have hstep : mostSimStep ((-1 : Int), none) p = ((p.2 : Int), some [p.1]) := by
        rw [mostSimStep, if_neg (by omega), if_pos (by omega)]
      simp only [List.nil_append, List.foldl_cons, List.foldl_nil, hstep]
      refine ⟨trivial, ⟨p, ?_, rfl⟩, ?_, ?_⟩
      · simp
      · intro q hq
        simp at hq
        subst hq
        exact le_refl _
      · rw [List.filter_cons]
        simp
    · obtain ⟨M, hM1, hM2, hM3, hM4⟩ := ih hlne
      rw [List.foldl_append] at *
      set r := l.foldl mostSimStep ((-1 : Int), none) with hr
      rcases Nat.lt_trichotomy p.2 M with hlt | heq | hgt
      · have hstep : mostSimStep r p = r := by
          rw [mostSimStep, if_neg (by rw [hM1]; omega), if_neg (by rw [hM1]; omega)]
        simp only [List.foldl_cons, List.foldl_nil, hstep]
        refine ⟨M, hM1, ?_, ?_, ?_⟩
        · obtain ⟨q, hq, hqM⟩ := hM2
          exact ⟨q, List.mem_append_left _ hq, hqM⟩
        · intro q hq
          rcases List.mem_append.mp hq with hq | hq
          · exact hM3 q hq
          · simp at hq
            subst hq
            omega
        · rw [hM4, List.filter_append, List.filter_cons]
          have : decide (p.2 = M) = false := by simp; omega
          simp [this]
      · have hstep : mostSimStep r p = (r.1, some ((r.2.getD []) ++ [p.1])) := by
          rw [mostSimStep, if_pos (by rw [hM1, heq])]
        simp only [List.foldl_cons, List.foldl_nil, hstep]
        refine ⟨M, hM1, ?_, ?_, ?_⟩
        · exact ⟨p, List.mem_append_right _ (by simp), heq⟩
        · intro q hq
          rcases List.mem_append.mp hq with hq | hq
          · exact hM3 q hq
          · simp at hq
            subst hq
            omega
        · rw [hM4, List.filter_append, List.filter_cons]
          simp [heq]
      · have hstep : mostSimStep r p = ((p.2 : Int), some [p.1]) := by
          rw [mostSimStep, if_neg (by rw [hM1]; omega), if_pos (by rw [hM1]; omega)]
        simp only [List.foldl_cons, List.foldl_nil, hstep]
        refine ⟨p.2, rfl, ?_, ?_, ?_⟩
        · exact ⟨p, List.mem_append_right _ (by simp), rfl⟩
        · intro q hq
          rcases List.mem_append.mp hq with hq | hq
          · have := hM3 q hq
            omega
          · simp at hq
            subst hq
            omega
        · have hfl : l.filter (fun q => q.2 = p.2) = [] := by
            rw [List.filter_eq_nil_iff]
            intro q hq
            have := hM3 q hq
            simp
            omega
          rw [List.filter_append, hfl, List.filter_cons]
          simp

/-- Claim C5 (amended): `getMostSimulatedSimultaneousAction` returns, among
the node's child joint actions (resolved through the action registry, with
`pairs` listing each child's registered action and visit count in insertion
order), the FIRST action whose child attains the maximal visit count
(`pickFirstMax`); ties are not randomised — the earliest-registered tied
child always wins. -/
theorem getMostSimulated_returns_first_max (t : MonteCarloTree) (nid : Nat)
    (node : MonteCarloNode) (pairs : List (SimultaneousAction × Nat))
    (hnode : t.arena[nid]? = some node)
    (hres : List.Forall₂ (fun (h : String) (p : SimultaneousAction × Nat) =>
      List.lookup h t.actions = some p.1 ∧ p.1.hash = h ∧
        (((List.lookup h node.childNodes).bind fun cid => t.arena[cid]?).map
          MonteCarloNode.numberOfVisits) = some p.2) (MonteCarloNode.childActions node) pairs)
    (hne : pairs ≠ []) :
    ∃ sa, pickFirstMax pairs = some sa ∧
      t.getMostSimulatedSimultaneousAction (some nid) = Except.ok sa := by
  obtain ⟨M, hM1, hM2, hM3, hM4⟩ := foldl_mostSimStep_spec pairs hne
  have hmax : (pairs.map Prod.snd).max? = some M := by
    rw [List.max?_eq_some_iff]
    · constructor
      · obtain ⟨p, hp, hpM⟩ := hM2
        exact List.mem_map.mpr ⟨p, hp, hpM⟩
      · intro b hb
        obtain ⟨q, hq, hqb⟩ := List.mem_map.mp hb
        rw [← hqb]
        exact hM3 q hq
    · exact fun a => le_refl a
    · exact fun a b => max_choice a b
    · exact fun a b c => max_le_iff
  obtain ⟨p0, hp0mem, hp0M⟩ := hM2
  have hfilne : (pairs.filter fun p => p.2 = M) ≠ [] := by
    intro hnil
    rw [List.filter_eq_nil_iff] at hnil
    exact hnil p0 hp0mem (by simp [hp0M])
  obtain ⟨sa, hsa⟩ : ∃ sa, ((pairs.filter fun p => p.2 = M).map Prod.fst).head? = some sa := by
    cases hfl : (pairs.filter fun p => p.2 = M) with
    | nil => exact absurd hfl hfilne
    | cons q qs => exact ⟨q.1, rfl⟩
  refine ⟨sa, ?_, ?_⟩
  · simp only [pickFirstMax, hmax]
    exact hsa
  · have h1 : t.getMostSimulatedSimultaneousAction (some nid) =
        (match t.arena[nid]? with
         | none => Except.error "TypeError: cannot read childActions of undefined"
         | some node => do
           let res ← (MonteCarloNode.childActions node).foldlM (t.mostSimulatedStep node)
             ((-1 : Int), none)
           match res.2 with
           | none => Except.error "TypeError: cannot index undefined"
           | some best =>
             match best[0]? with
             | some a => Except.ok a
             | none => Except.error "unreachable: tied list is never empty") := rfl
    rw [h1, hnode]
    show ((MonteCarloNode.childActions node).foldlM (t.mostSimulatedStep node)
        ((-1 : Int), none) >>= fun res =>
          match res.2 with
          | none => Except.error "TypeError: cannot index undefined"
          | some best =>
            match best[0]? with
            | some a => Except.ok a
            | none => Except.error "unreachable: tied list is never empty") = Except.ok sa
    rw [foldlM_mostSimulatedStep_eq hres ((-1 : Int), none)]
    show (match (pairs.foldl mostSimStep ((-1 : Int), none)).2 with
      | none => Except.error "TypeError: cannot index undefined"
      | some best =>
        match best[0]? with
        | some a => Except.ok a
        | none => Except.error "unreachable: tied list is never empty") = Except.ok sa
    rw [hM4]
    show (match (List.map Prod.fst (List.filter (fun p => p.2 = M) pairs))[0]? with
      | some a => Except.ok a
      | none => Except.error "unreachable: tied list is never empty") = Except.ok sa
    rw [← List.head?_eq_getElem?, hsa]

/-- Witness for the amended C5 at `ce5tree`: both children are tied at one
visit, and the function returns `pickFirstMax` of the pairs — the first
registered action. -/
theorem getMostSimulated_returns_first_max_witness :
    ce5tree.arena[0]? = some ce5root ∧
    [(ce5sa1, 1), (ce5sa2, 1)] ≠ ([] : List (SimultaneousAction × Nat)) ∧
    (∃ sa, pickFirstMax [(ce5sa1, 1), (ce5sa2, 1)] = some sa ∧
      ce5tree.getMostSimulatedSimultaneousAction (some 0) = Except.ok sa) :=
  ⟨rfl, by decide,
    getMostSimulated_returns_first_max ce5tree 0 ce5root [(ce5sa1, 1), (ce5sa2, 1)] rfl
      (List.Forall₂.cons ⟨rfl, rfl, rfl⟩ (List.Forall₂.cons ⟨rfl, rfl, rfl⟩ List.Forall₂.nil))
      (by decide)⟩

/-! Preservation of the tree well-formedness invariant and of the root's
visit count across the tree operations used by one simulation iteration. -/

theorem lookup_mem {α β : Type} [BEq α] [LawfulBEq α] {l : List (α × β)} {k : α} {v : β}
    (h : List.lookup k l = some v) : (k, v) ∈ l := by
  induction l with
  | nil => simp [List.lookup] at h
  | cons a t ih =>
    obtain ⟨ka, va⟩ := a
    rw [List.lookup] at h
    cases hk : (k == ka) with
    | true =>
      rw [hk] at h
      simp only [Option.some.injEq] at h
      have : k = ka := eq_of_beq hk
      subst this
      subst h
      exact List.mem_cons_self _ _
    | false =>
      rw [hk] at h
      exact List.mem_cons_of_mem _ (ih h)

theorem propagate_map_eq {f : MonteCarloNode → MonteCarloNode}
    (hf : ∀ n, (f n).parent = n.parent) {γ : Type} (g : MonteCarloNode → γ)
    (hg : ∀ n, g (f n) = g n) {arena : List MonteCarloNode} {id fuel : Nat}
    (hp : parentLt arena) (hlen : id < arena.length) (hfuel : id + 1 ≤ fuel) :
    ∀ (j : Nat), ((propagateFuel f fuel arena id)[j]?).map g = (arena[j]?).map g := by
  intro j
  rw [propagateFuel_getElem hf id fuel arena hp hlen hfuel j]
  by_cases hm : j ∈ chainFuel arena fuel id
  · rw [if_pos hm, Option.map_map]
    exact Option.map_congr fun a _ => hg a
  · rw [if_neg hm]

theorem addVisit_get_zero {arena : List MonteCarloNode} {id : Nat} (vs : ℝ)
    (hp : parentLt arena) (hr : rootedArena arena) (hlen : id < arena.length) :
    (MonteCarloNode.addVisit arena id vs)[0]? = (arena[0]?).map (bumpVisit vs) := by
  have hmaster : ∀ (j : Nat), (MonteCarloNode.addVisit arena id vs)[j]? =
      if j ∈ chainFuel arena (id + 1) id then (arena[j]?).map (bumpVisit vs) else arena[j]? :=
    propagateFuel_getElem (f := bumpVisit vs) (fun n => rfl) id (id + 1) arena hp hlen (le_refl _)
  rw [hmaster 0, if_pos (zero_mem_chainFuel hp hr id (id + 1) hlen (le_refl _))]

theorem wfTree_ofState (st : State) :
    WFTree (MonteCarloTree.ofState st) ∧ (MonteCarloTree.ofState st).rootVisits = some 0 := by
  have hlook : List.lookup (MonteCarloTree.ofState st).rootHash
      (MonteCarloTree.ofState st).nodes = some 0 := by
    simp [MonteCarloTree.ofState, List.lookup]
  constructor
  · refine ⟨Nat.one_pos, Nat.one_pos, ?_, ?_, hlook, ?_⟩
    · intro i node hi p hp
      match i with
      | 0 =>
        simp only [MonteCarloTree.ofState, List.getElem?_cons_zero, Option.some.injEq] at hi
        rw [← hi] at hp
        simp at hp
      | i + 1 => simp [MonteCarloTree.ofState] at hi
    · intro i node hi
      match i with
      | 0 =>
        simp only [MonteCarloTree.ofState, List.getElem?_cons_zero, Option.some.injEq] at hi
        rw [← hi]
        simp
      | i + 1 => simp [MonteCarloTree.ofState] at hi
    · intro i node hi pr hpr
      match i with
      | 0 =>
        simp only [MonteCarloTree.ofState, List.getElem?_cons_zero, Option.some.injEq] at hi
        rw [← hi] at hpr
        simp at hpr
      | i + 1 => simp [MonteCarloTree.ofState] at hi
  · rw [MonteCarloTree.rootVisits, MonteCarloTree.root, hlook]
    rfl

theorem moveOrCreateChild_eq_move {t : MonteCarloTree} {sa : SimultaneousAction} {st : State}
    {cur : MonteCarloNode} {childId : Nat}
    (hl : List.lookup sa.hash cur.childNodes = some childId) :
    t.moveOrCreateChild sa st cur = { t with currentNode := childId } := by
  rw [MonteCarloTree.moveOrCreateChild, hl]

theorem moveOrCreateChild_eq_create {t : MonteCarloTree} {sa : SimultaneousAction} {st : State}
    {cur : MonteCarloNode} (hl : List.lookup sa.hash cur.childNodes = none) :
    t.moveOrCreateChild sa st cur =
      { t with arena := (t.arena.set t.currentNode { cur with childNodes := cur.childNodes ++ [(sa.hash, t.arena.length)] }) ++ [{ state := st, childNodes := [], parent := some t.currentNode, numberOfVisits := 0, payoff := 0, rollouts := 0 }], currentNode := t.arena.length } := by
  rw [MonteCarloTree.moveOrCreateChild, hl]

theorem moveOrCreateChild_preserves (t : MonteCarloTree) (sa : SimultaneousAction) (st : State)
    (cur : MonteCarloNode) (hcur : t.arena[t.currentNode]? = some cur) (h : WFTree t) :
    WFTree (t.moveOrCreateChild sa st cur) ∧
    (t.moveOrCreateChild sa st cur).rootVisits = t.rootVisits ∧
    (t.moveOrCreateChild sa st cur).rootHash = t.rootHash := by
  cases hl : List.lookup sa.hash cur.childNodes with
  | some childId =>
    rw [moveOrCreateChild_eq_move hl]
    refine ⟨⟨h.len_pos, ?_, h.parent_lt, h.rooted, h.root_reg, h.childs_lt⟩, rfl, rfl⟩
    exact h.childs_lt t.currentNode cur hcur (sa.hash, childId) (lookup_mem hl)
  | none =>
    rw [moveOrCreateChild_eq_create hl]
    set pu : MonteCarloNode :=
      { cur with childNodes := cur.childNodes ++ [(sa.hash, t.arena.length)] } with hpu
    set nn : MonteCarloNode :=
      { state := st, childNodes := [], parent := some t.currentNode,
        numberOfVisits := 0, payoff := 0, rollouts := 0 } with hnn
    have hlen' : ((t.arena.set t.currentNode pu) ++ [nn]).length = t.arena.length + 1 := by
      simp
    have hget : ∀ (j : Nat), ((t.arena.set t.currentNode pu) ++ [nn])[j]? =
        if j = t.currentNode then some pu
        else if j = t.arena.length then some nn
        else t.arena[j]? := by
      intro j
      rcases eq_or_ne j t.currentNode with rfl | hjc
      · rw [if_pos rfl, List.getElem?_append_left (by rw [List.length_set]; exact h.cur_lt),
          List.getElem?_set_self h.cur_lt]
      · rw [if_neg hjc]
        rcases eq_or_ne j t.arena.length with rfl | hjn
        · rw [if_pos rfl]
          have h1 : ((t.arena.set t.currentNode pu) ++ [nn])[(t.arena.set t.currentNode
              pu).length]? = some nn := List.getElem?_concat_length _ _
          rw [List.length_set] at h1
          exact h1
        · rw [if_neg hjn]
          by_cases hjlt : j < t.arena.length
          · rw [List.getElem?_append_left (by rw [List.length_set]; exact hjlt),
              List.getElem?_set_ne (Ne.symm hjc)]
          · rw [List.getElem?_eq_none (by rw [hlen']; omega),
              List.getElem?_eq_none (by omega)]
    have hcne : t.currentNode ≠ t.arena.length := by
      have := h.cur_lt
      omega
    refine ⟨⟨?_, ?_, ?_, ?_, h.root_reg, ?_⟩, ?_, rfl⟩
    · show 0 < ((t.arena.set t.currentNode pu) ++ [nn]).length
      rw [hlen']
      omega
    · show t.arena.length < ((t.arena.set t.currentNode pu) ++ [nn]).length
      rw [hlen']
      omega
    · intro i node hi p hp
      rw [hget i] at hi
      rcases eq_or_ne i t.currentNode with rfl | hic
      · rw [if_pos rfl] at hi
        simp only [Option.some.injEq] at hi
        have hpar : node.parent = cur.parent := by rw [← hi]
        rw [hpar] at hp
        exact h.parent_lt _ cur hcur p hp
      · rw [if_neg hic] at hi
        rcases eq_or_ne i t.arena.length with rfl | hin
        · rw [if_pos rfl] at hi
          simp only [Option.some.injEq] at hi
          have hpar : node.parent = some t.currentNode := by rw [← hi]
          rw [hpar] at hp
          simp only [Option.some.injEq] at hp
          rw [← hp]
          exact h.cur_lt
        · rw [if_neg hin] at hi
          exact h.parent_lt i node hi p hp
    · intro i node hi
      rw [hget i] at hi
      rcases eq_or_ne i t.currentNode with rfl | hic
      · rw [if_pos rfl] at hi
        simp only [Option.some.injEq] at hi
        have hpar : node.parent = cur.parent := by rw [← hi]
        rw [hpar]
        exact h.rooted _ cur hcur
      · rw [if_neg hic] at hi
        rcases eq_or_ne i t.arena.length with rfl | hin
        · rw [if_pos rfl] at hi
          simp only [Option.some.injEq] at hi
          have hpar : node.parent = some t.currentNode := by rw [← hi]
          rw [hpar]
          constructor
          · intro hc
            exact absurd hc (by simp)
          · intro hc
            have := h.len_pos
            omega
        · rw [if_neg hin] at hi
          exact h.rooted i node hi
    · intro i node hi pr hpr
      rw [hget i] at hi
      show pr.2 < ((t.arena.set t.currentNode pu) ++ [nn]).length
      rw [hlen']
      rcases eq_or_ne i t.currentNode with rfl | hic
      · rw [if_pos rfl] at hi
        simp only [Option.some.injEq] at hi
        have hch : node.childNodes = cur.childNodes ++ [(sa.hash, t.arena.length)] := by
          rw [← hi]
        rw [hch] at hpr
        rcases List.mem_append.mp hpr with hm | hm
        · have := h.childs_lt _ cur hcur pr hm
          omega
        · simp only [List.mem_singleton] at hm
          subst hm
          show t.arena.length < t.arena.length + 1
          omega
      · rw [if_neg hic] at hi
        rcases eq_or_ne i t.arena.length with rfl | hin
        · rw [if_pos rfl] at hi
          simp only [Option.some.injEq] at hi
          have hch : node.childNodes = [] := by rw [← hi]
          rw [hch] at hpr
          simp at hpr
        · rw [if_neg hin] at hi
          have := h.childs_lt i node hi pr hpr
          omega
    · rw [MonteCarloTree.rootVisits, MonteCarloTree.root, MonteCarloTree.rootVisits,
        MonteCarloTree.root]
      show ((List.lookup t.rootHash t.nodes).bind fun i =>
        ((t.arena.set t.currentNode pu) ++ [nn])[i]?).map MonteCarloNode.numberOfVisits = _
      rw [h.root_reg]
      show (((t.arena.set t.currentNode pu) ++ [nn])[0]?).map MonteCarloNode.numberOfVisits =
        (t.arena[0]?).map MonteCarloNode.numberOfVisits
      rw [hget 0]
      rcases eq_or_ne (0 : Nat) t.currentNode with hzc | hzc
      · rw [if_pos hzc]
        have hcur0 : t.arena[0]? = some cur := by rw [hzc]; exact hcur
        rw [hcur0]
        rfl
      · rw [if_neg hzc, if_neg (by have := h.len_pos; omega)]

theorem addAction_fst_fields (t : MonteCarloTree) (sa : SimultaneousAction) :
    ((t.addAction sa).1).arena = t.arena ∧ ((t.addAction sa).1).nodes = t.nodes ∧
    ((t.addAction sa).1).currentNode = t.currentNode ∧
    ((t.addAction sa).1).rootHash = t.rootHash := by
  rw [MonteCarloTree.addAction]
  by_cases hl : (List.lookup sa.hash t.actions).isSome
  · rw [if_pos hl]
    exact ⟨rfl, rfl, rfl, rfl⟩
  · rw [if_neg hl]
    exact ⟨rfl, rfl, rfl, rfl⟩

theorem wf_of_fields_eq {t t' : MonteCarloTree} (ha : t'.arena = t.arena)
    (hn : t'.nodes = t.nodes) (hc : t'.currentNode = t.currentNode)
    (hh : t'.rootHash = t.rootHash) (h : WFTree t) :
    WFTree t' ∧ t'.rootVisits = t.rootVisits := by
  constructor
  · refine ⟨?_, ?_, ?_, ?_, ?_, ?_⟩
    · rw [ha]; exact h.len_pos
    · rw [ha, hc]; exact h.cur_lt
    · rw [parentLt, ha]; exact h.parent_lt
    · rw [rootedArena, ha]; exact h.rooted
    · rw [hn, hh]; exact h.root_reg
    · rw [ha]
      intro i node hi pr hpr
      exact h.childs_lt i node hi pr hpr
  · rw [MonteCarloTree.rootVisits, MonteCarloTree.root, ha, hn, hh]
    rfl

theorem registerCurrent_eq (t : MonteCarloTree) (cnode : MonteCarloNode)
    (hc : t.arena[t.currentNode]? = some cnode) :
    t.registerCurrent =
      (if (List.lookup cnode.hash t.nodes).isSome then t
       else { t with nodes := t.nodes ++ [(cnode.hash, t.currentNode)] }) := by
  rw [MonteCarloTree.registerCurrent, hc]

theorem registerCurrent_preserves (t : MonteCarloTree) (h : WFTree t) :
    WFTree t.registerCurrent ∧ t.registerCurrent.rootVisits = t.rootVisits ∧
    t.registerCurrent.rootHash = t.rootHash := by
  obtain ⟨cnode, hc⟩ : ∃ c, t.arena[t.currentNode]? = some c :=
    ⟨_, List.getElem?_eq_getElem h.cur_lt⟩
  rw [registerCurrent_eq t cnode hc]
  by_cases hreg : (List.lookup cnode.hash t.nodes).isSome
  · rw [if_pos hreg]
    exact ⟨h, rfl, rfl⟩
  · rw [if_neg hreg]
    have hreg' : List.lookup t.rootHash (t.nodes ++ [(cnode.hash, t.currentNode)]) = some 0 :=
      lookup_append_left_of_some _ h.root_reg
    refine ⟨⟨h.len_pos, h.cur_lt, h.parent_lt, h.rooted, hreg', h.childs_lt⟩, ?_, rfl⟩
    rw [MonteCarloTree.rootVisits, MonteCarloTree.root, MonteCarloTree.rootVisits,
      MonteCarloTree.root]
    show ((List.lookup t.rootHash (t.nodes ++ [(cnode.hash, t.currentNode)])).bind fun i =>
      t.arena[i]?).map MonteCarloNode.numberOfVisits = _
    rw [hreg', h.root_reg]

theorem goToChildState_preserves (t : MonteCarloTree) (sa : SimultaneousAction) (st : State)
    (h : WFTree t) :
    WFTree (t.goToChildState sa st) ∧ (t.goToChildState sa st).rootVisits = t.rootVisits ∧
    (t.goToChildState sa st).rootHash = t.rootHash := by
  obtain ⟨cur, hcur⟩ : ∃ c, t.arena[t.currentNode]? = some c :=
    ⟨_, List.getElem?_eq_getElem h.cur_lt⟩
  have hg : t.goToChildState sa st =
      (((t.moveOrCreateChild sa st cur).addAction sa).1).registerCurrent := by
    rw [MonteCarloTree.goToChildState, hcur]
  rw [hg]
  obtain ⟨hwf1, hrv1, hrh1⟩ := moveOrCreateChild_preserves t sa st cur hcur h
  obtain ⟨ha2, hn2, hc2, hh2⟩ := addAction_fst_fields (t.moveOrCreateChild sa st cur) sa
  obtain ⟨hwf2, hrv2⟩ := wf_of_fields_eq ha2 hn2 hc2 hh2 hwf1
  obtain ⟨hwf3, hrv3, hrh3⟩ := registerCurrent_preserves _ hwf2
  refine ⟨hwf3, ?_, ?_⟩
  · rw [hrv3, hrv2, hrv1]
  · rw [hrh3, hh2, hrh1]

theorem update_preserves (t : MonteCarloTree) (vs : ℝ) (h : WFTree t) :
    WFTree (t.update vs) ∧ (t.update vs).rootVisits = t.rootVisits.map (· + 1) ∧
    (t.update vs).rootHash = t.rootHash := by
  have hlen : (MonteCarloNode.addVisit t.arena t.currentNode vs).length = t.arena.length := by
    rw [MonteCarloNode.addVisit, propagateFuel_length]
  have hparmap : ∀ (j : Nat),
      ((MonteCarloNode.addVisit t.arena t.currentNode vs)[j]?).map MonteCarloNode.parent
      = (t.arena[j]?).map MonteCarloNode.parent := by
    rw [MonteCarloNode.addVisit]
    exact propagate_map_eq (f := bumpVisit vs) (fun n => rfl) MonteCarloNode.parent
      (fun n => rfl) h.parent_lt h.cur_lt (le_refl _)
  have hchmap : ∀ (j : Nat),
      ((MonteCarloNode.addVisit t.arena t.currentNode vs)[j]?).map MonteCarloNode.childNodes
      = (t.arena[j]?).map MonteCarloNode.childNodes := by
    rw [MonteCarloNode.addVisit]
    exact propagate_map_eq (f := bumpVisit vs) (fun n => rfl) MonteCarloNode.childNodes
      (fun n => rfl) h.parent_lt h.cur_lt (le_refl _)
  refine ⟨⟨?_, ?_, ?_, ?_, h.root_reg, ?_⟩, ?_, rfl⟩
  · show 0 < (MonteCarloNode.addVisit t.arena t.currentNode vs).length
    rw [hlen]
    exact h.len_pos
  · show t.currentNode < (MonteCarloNode.addVisit t.arena t.currentNode vs).length
    rw [hlen]
    exact h.cur_lt
  · exact parentLt_of_parent_map_eq hparmap h.parent_lt
  · exact rootedArena_of_parent_map_eq hparmap h.rooted
  · intro i node hi pr hpr
    have hi2 : (MonteCarloNode.addVisit t.arena t.currentNode vs)[i]? = some node := hi
    show pr.2 < (MonteCarloNode.addVisit t.arena t.currentNode vs).length
    rw [hlen]
    have hmap := hchmap i
    rw [hi2] at hmap
    cases h1 : t.arena[i]? with
    | none => rw [h1] at hmap; simp at hmap
    | some n1 =>
      rw [h1] at hmap
      simp only [Option.map_some', Option.some.injEq] at hmap
      exact h.childs_lt i n1 h1 pr (by rw [← hmap]; exact hpr)
  · rw [MonteCarloTree.rootVisits, MonteCarloTree.root, MonteCarloTree.rootVisits,
      MonteCarloTree.root]
    show ((List.lookup t.rootHash t.nodes).bind fun i =>
        (MonteCarloNode.addVisit t.arena t.currentNode vs)[i]?).map
        MonteCarloNode.numberOfVisits =
      (((List.lookup t.rootHash t.nodes).bind fun i => t.arena[i]?).map
        MonteCarloNode.numberOfVisits).map (· + 1)
    rw [h.root_reg]
    show ((MonteCarloNode.addVisit t.arena t.currentNode vs)[0]?).map
        MonteCarloNode.numberOfVisits
      = ((t.arena[0]?).map MonteCarloNode.numberOfVisits).map (· + 1)
    rw [addVisit_get_zero vs h.parent_lt h.rooted h.cur_lt, Option.map_map, Option.map_map]
    rfl

theorem addRollout_preserves (t : MonteCarloTree) (h : WFTree t) :
    WFTree t.addRolloutAtCurrent ∧ t.addRolloutAtCurrent.rootVisits = t.rootVisits ∧
    t.addRolloutAtCurrent.rootHash = t.rootHash := by
  have hlen : (MonteCarloNode.addRollout t.arena t.currentNode).length = t.arena.length := by
    rw [MonteCarloNode.addRollout, propagateFuel_length]
  have hparmap : ∀ (j : Nat),
      ((MonteCarloNode.addRollout t.arena t.currentNode)[j]?).map MonteCarloNode.parent
      = (t.arena[j]?).map MonteCarloNode.parent := by
    rw [MonteCarloNode.addRollout]
    exact propagate_map_eq (f := bumpRollout) (fun n => rfl) MonteCarloNode.parent
      (fun n => rfl) h.parent_lt h.cur_lt (le_refl _)
  have hchmap : ∀ (j : Nat),
      ((MonteCarloNode.addRollout t.arena t.currentNode)[j]?).map MonteCarloNode.childNodes
      = (t.arena[j]?).map MonteCarloNode.childNodes := by
    rw [MonteCarloNode.addRollout]
    exact propagate_map_eq (f := bumpRollout) (fun n => rfl) MonteCarloNode.childNodes
      (fun n => rfl) h.parent_lt h.cur_lt (le_refl _)
  have hvmap : ∀ (j : Nat),
      ((MonteCarloNode.addRollout t.arena t.currentNode)[j]?).map MonteCarloNode.numberOfVisits
      = (t.arena[j]?).map MonteCarloNode.numberOfVisits := by
    rw [MonteCarloNode.addRollout]
    exact propagate_map_eq (f := bumpRollout) (fun n => rfl) MonteCarloNode.numberOfVisits
      (fun n => rfl) h.parent_lt h.cur_lt (le_refl _)
  refine ⟨⟨?_, ?_, ?_, ?_, h.root_reg, ?_⟩, ?_, rfl⟩
  · show 0 < (MonteCarloNode.addRollout t.arena t.currentNode).length
    rw [hlen]
    exact h.len_pos
  · show t.currentNode < (MonteCarloNode.addRollout t.arena t.currentNode).length
    rw [hlen]
    exact h.cur_lt
  · exact parentLt_of_parent_map_eq hparmap h.parent_lt
  · exact rootedArena_of_parent_map_eq hparmap h.rooted
  · intro i node hi pr hpr
    have hi2 : (MonteCarloNode.addRollout t.arena t.currentNode)[i]? = some node := hi
    show pr.2 < (MonteCarloNode.addRollout t.arena t.currentNode).length
    rw [hlen]
    have hmap := hchmap i
    rw [hi2] at hmap
    cases h1 : t.arena[i]? with
    | none => rw [h1] at hmap; simp at hmap
    | some n1 =>
      rw [h1] at hmap
      simp only [Option.map_some', Option.some.injEq] at hmap
      exact h.childs_lt i n1 h1 pr (by rw [← hmap]; exact hpr)
  · rw [MonteCarloTree.rootVisits, MonteCarloTree.root, MonteCarloTree.rootVisits,
      MonteCarloTree.root]
    show ((List.lookup t.rootHash t.nodes).bind fun i =>
        (MonteCarloNode.addRollout t.arena t.currentNode)[i]?).map
        MonteCarloNode.numberOfVisits =
      ((List.lookup t.rootHash t.nodes).bind fun i => t.arena[i]?).map
        MonteCarloNode.numberOfVisits
    rw [h.root_reg]
    show ((MonteCarloNode.addRollout t.arena t.currentNode)[0]?).map
        MonteCarloNode.numberOfVisits
      = (t.arena[0]?).map MonteCarloNode.numberOfVisits
    exact hvmap 0

theorem backToRoot_preserves (t : MonteCarloTree) (h : WFTree t) :
    WFTree t.backToRoot ∧ t.backToRoot.rootVisits = t.rootVisits ∧
    t.backToRoot.rootHash = t.rootHash := by
  have heq : t.backToRoot = { t with currentNode := 0 } := by
    rw [MonteCarloTree.backToRoot, h.root_reg]
  rw [heq]
  exact ⟨⟨h.len_pos, h.len_pos, h.parent_lt, h.rooted, h.root_reg, h.childs_lt⟩, rfl, rfl⟩

/-- One completed `_simulate` pass preserves tree well-formedness, increments
`_simulationsRan` by exactly one, and increments the root's visit count by
exactly one (the single terminal backpropagation of the iteration). -/
theorem simulate_step_spec {σ : Type} (o : SimOracle σ) (c : ℝ) (rng : Nat → Nat) :
    ∀ (fuel : Nat) (ds : DriverState σ) (dr : Bool) (ds' : DriverState σ),
      WFTree ds.tree →
      SmMCTS.simulateFuel o c rng fuel ds dr = Except.ok ds' →
      WFTree ds'.tree ∧ ds'.simulationsRan = ds.simulationsRan + 1 ∧
        ds'.tree.rootVisits = ds.tree.rootVisits.map (· + 1) := by
  intro fuel
  induction fuel with
  | zero =>
    intro ds dr ds' _ hok
    exact absurd hok (by simp [SmMCTS.simulateFuel])
  | succ n ih =>
    intro ds dr ds' hwf hok
    rw [SmMCTS.simulateFuel] at hok
    by_cases h1 : o.isOver ds.sim
    · rw [if_pos h1] at hok
      injection hok with h2
      subst h2
      have hbase : WFTree (if dr = true then ds.tree
            else ds.tree.goToChildState (o.prevAction ds.sim) (o.state ds.sim)) ∧
          (if dr = true then ds.tree
            else ds.tree.goToChildState (o.prevAction ds.sim) (o.state ds.sim)).rootVisits
            = ds.tree.rootVisits := by
        cases dr with
        | true => simp only [if_pos rfl]; exact ⟨hwf, rfl⟩
        | false =>
          simp only [Bool.false_eq_true, if_neg, ite_false]
          obtain ⟨ha, hb, _⟩ := goToChildState_preserves ds.tree (o.prevAction ds.sim)
            (o.state ds.sim) hwf
          exact ⟨ha, hb⟩
      obtain ⟨hwf1, hrv1⟩ := hbase
      obtain ⟨hwfu, hrvu, _⟩ := update_preserves _ (o.reward ds.sim) hwf1
      exact ⟨hwfu, rfl, by rw [hrvu, hrv1]⟩
    · rw [if_neg h1] at hok
      by_cases h2 : (o.state ds.sim).awaitsChance
      · rw [if_pos h2] at hok
        obtain ⟨hwf1, hrv1, _⟩ := goToChildState_preserves ds.tree (o.prevAction ds.sim)
          (o.state ds.sim) hwf
        obtain ⟨ha, hb, hc⟩ := ih _ false ds' hwf1 hok
        exact ⟨ha, hb, by rw [hc, hrv1]⟩
      · rw [if_neg h2] at hok
        by_cases h3 : ds.tree.hasState (o.state ds.sim) = true
        · rw [if_pos h3] at hok
          have htsel : WFTree (if ((ds.tree.arena[ds.tree.currentNode]?).map
                MonteCarloNode.hash) ≠ some (o.state ds.sim).hash then
                ds.tree.goToChildState (o.prevAction ds.sim) (o.state ds.sim)
              else ds.tree) ∧
              (if ((ds.tree.arena[ds.tree.currentNode]?).map MonteCarloNode.hash)
                  ≠ some (o.state ds.sim).hash then
                ds.tree.goToChildState (o.prevAction ds.sim) (o.state ds.sim)
              else ds.tree).rootVisits = ds.tree.rootVisits := by
            by_cases h4 : ((ds.tree.arena[ds.tree.currentNode]?).map MonteCarloNode.hash)
                ≠ some (o.state ds.sim).hash
            · rw [if_pos h4]
              obtain ⟨ha, hb, _⟩ := goToChildState_preserves ds.tree (o.prevAction ds.sim)
                (o.state ds.sim) hwf
              exact ⟨ha, hb⟩
            · rw [if_neg h4]
              exact ⟨hwf, rfl⟩
          obtain ⟨hwf1, hrv1⟩ := htsel
          cases hsel : SmMCTS.select
              (if ((ds.tree.arena[ds.tree.currentNode]?).map MonteCarloNode.hash)
                  ≠ some (o.state ds.sim).hash then
                ds.tree.goToChildState (o.prevAction ds.sim) (o.state ds.sim)
              else ds.tree) c rng ds.rngIdx with
          | error e =>
            rw [hsel] at hok
            simp at hok
          | ok p =>
            obtain ⟨sa, k1⟩ := p
            rw [hsel] at hok
            obtain ⟨ha, hb, hc⟩ := ih _ false ds' hwf1 hok
            exact ⟨ha, hb, by rw [hc, hrv1]⟩
        · rw [if_neg h3] at hok
          cases hro : rolloutSim o rng n ds.sim ds.rngIdx with
          | error e =>
            rw [hro] at hok
            simp at hok
          | ok p =>
            obtain ⟨s1, k1⟩ := p
            rw [hro] at hok
            obtain ⟨hwf1, hrv1, _⟩ := goToChildState_preserves ds.tree (o.prevAction ds.sim)
              (o.state ds.sim) hwf
            obtain ⟨hwf2, hrv2, _⟩ := addRollout_preserves _ hwf1
            obtain ⟨ha, hb, hc⟩ := ih _ true ds' hwf2 hok
            exact ⟨ha, hb, by rw [hc, hrv2, hrv1]⟩

/-- The `do … while` loop of `runSimulations`, when the wall clock never
reads past the deadline: if it completes and the entry count is below the
target, it exits with exactly the target count and a root visit count equal
to the count. -/
theorem loop_spec {σ : Type} (o : SimOracle σ) (c : ℝ) (rng : Nat → Nat)
    (clock : Nat → Bool) (simFuel : Nat) (hclock : ∀ k, clock k = false) :
    ∀ (fuel : Nat) (ds : DriverState σ) (target : Nat) (ds' : DriverState σ),
      WFTree ds.tree → ds.tree.rootVisits = some ds.simulationsRan →
      ds.simulationsRan < target →
      SmMCTS.runSimulationsLoop o c rng clock simFuel fuel ds target = Except.ok ds' →
      ds'.simulationsRan = target ∧ ds'.tree.rootVisits = some target := by
  intro fuel
  induction fuel with
  | zero =>
    intro ds target ds' _ _ _ hok
    exact absurd hok (by simp [SmMCTS.runSimulationsLoop])
  | succ n ih =>
    intro ds target ds' hwf hrv hlt hok
    rw [SmMCTS.runSimulationsLoop] at hok
    cases hsim : SmMCTS.simulateFuel o c rng simFuel ds false with
    | error e =>
      rw [hsim] at hok
      simp at hok
    | ok ds1 =>
      rw [hsim] at hok
      have hok2 : (if SmMCTS.runSimulationsContinue ds1.simulationsRan target
            (clock ds1.simulationsRan) = true then
          SmMCTS.runSimulationsLoop o c rng clock simFuel n { ds1 with sim := o.restart ds1.sim, tree := ds1.tree.backToRoot } target
        else Except.ok { ds1 with sim := o.restart ds1.sim, tree := ds1.tree.backToRoot })
          = Except.ok ds' := hok
      obtain ⟨hwf1, hran1, hrv1⟩ := simulate_step_spec o c rng simFuel ds false ds1 hwf hsim
      obtain ⟨hwf2, hrv2, _⟩ := backToRoot_preserves ds1.tree hwf1
      have hcond : SmMCTS.runSimulationsContinue ds1.simulationsRan target
          (clock ds1.simulationsRan) = decide (ds1.simulationsRan < target) := by
        rw [SmMCTS.runSimulationsContinue, hclock, Bool.or_false]
      by_cases hlt1 : ds1.simulationsRan < target
      · rw [if_pos (by rw [hcond]; exact decide_eq_true hlt1)] at hok2
        have hrvX : ds1.tree.backToRoot.rootVisits = some ds1.simulationsRan := by
          rw [hrv2, hrv1, hrv, hran1]
          rfl
        exact ih { ds1 with sim := o.restart ds1.sim, tree := ds1.tree.backToRoot } target ds' hwf2 hrvX hlt1 hok2
      · rw [if_neg (by rw [hcond]; simp [hlt1])] at hok2
        injection hok2 with h2
        have htarget : ds1.simulationsRan = target := by omega
        refine ⟨?_, ?_⟩
        · rw [← h2]
          exact htarget
        · rw [← h2]
          show ds1.tree.backToRoot.rootVisits = some target
          rw [hrv2, hrv1, hrv]
          show some (ds.simulationsRan + 1) = some target
          rw [← htarget, hran1]

/-- Claim C3: for every fresh driver and every `N ≥ 1`, when the wall clock
never reads past the deadline and `runSimulations(N)`'s loop completes, the
`_simulationsRan` counter equals `N` and the root node's visit count equals
`N` — each completed iteration performs exactly one terminal backpropagation
that increments the root's visits by one (`simulate_step_spec`). -/
theorem runSimulations_fresh_root_visits {σ : Type} (o : SimOracle σ) (c : ℝ)
    (rng : Nat → Nat) (clock : Nat → Bool) (simFuel loopFuel N : Nat) (s0 : σ)
    (hN : 1 ≤ N) (hclock : ∀ k, clock k = false)
    (hok : (SmMCTS.runSimulationsModel o c rng clock simFuel loopFuel
      (SmMCTS.initialDriver o s0) N).isOk = true) :
    Except.map DriverState.simulationsRan (SmMCTS.runSimulationsModel o c rng clock simFuel
      loopFuel (SmMCTS.initialDriver o s0) N) = Except.ok N ∧
    Except.map (fun ds => ds.tree.rootVisits) (SmMCTS.runSimulationsModel o c rng clock
      simFuel loopFuel (SmMCTS.initialDriver o s0) N) = Except.ok (some N) := by
  cases hrun : SmMCTS.runSimulationsModel o c rng clock simFuel loopFuel
      (SmMCTS.initialDriver o s0) N with
  | error e =>
    rw [hrun] at hok
    simp [Except.isOk, Except.toBool] at hok
  | ok ds' =>
    obtain ⟨hwf0, hrv0⟩ := wfTree_ofState (o.state s0)
    have hrun2 : SmMCTS.runSimulationsLoop o c rng clock simFuel loopFuel
        (SmMCTS.initialDriver o s0) (0 + N) = Except.ok ds' := hrun
    rw [Nat.zero_add] at hrun2
    have hloop := loop_spec o c rng clock simFuel hclock loopFuel
      (SmMCTS.initialDriver o s0) N ds' hwf0 hrv0 (by exact hN) hrun2
    refine ⟨?_, ?_⟩
    · show Except.ok ds'.simulationsRan = Except.ok N
      rw [hloop.1]
    · show Except.ok ds'.tree.rootVisits = Except.ok (some N)
      rw [hloop.2]

/-- Witness for C3: on the two-step demo game, one simulation with the clock
never past the deadline completes with `simulationsRan = 1` and root visit
count `1`. -/
theorem runSimulations_fresh_root_visits_witness :
    1 ≤ 1 ∧ (∀ k : Nat, (fun (_ : Nat) => false) k = false) ∧
    (SmMCTS.runSimulationsModel demoOracle 1 (fun _ => 0) (fun _ => false) 2 1
      (SmMCTS.initialDriver demoOracle 0) 1).isOk = true ∧
    (Except.map DriverState.simulationsRan (SmMCTS.runSimulationsModel demoOracle 1
        (fun _ => 0) (fun _ => false) 2 1 (SmMCTS.initialDriver demoOracle 0) 1)
      = Except.ok 1 ∧
    Except.map (fun ds => ds.tree.rootVisits) (SmMCTS.runSimulationsModel demoOracle 1
        (fun _ => 0) (fun _ => false) 2 1 (SmMCTS.initialDriver demoOracle 0) 1)
      = Except.ok (some 1)) :=
  ⟨le_refl 1, fun _ => rfl, rfl,
    runSimulations_fresh_root_visits demoOracle 1 (fun _ => 0) (fun _ => false) 2 1 1 0
      (le_refl 1) (fun _ => rfl) rfl⟩

end SmMcts
